import Mathlib

/-!
# parallel-sync: a shallow embedding of `parallel-sync.go`

The program is a one-way directory synchroniser.  Its functions are embedded
as pure functions over an explicit `State`: a file system, the contents of the
`copyTasks` channel (FIFO, oldest first) and the lines written with
`log.Printf`.  The globals `src` and `dst` are passed as parameters.

The operating system is modelled by a flat, finite map from canonical path
strings to nodes.  Conventions of the model:

* paths are assumed clean (no trailing separator, no `.`/`..`, no doubled
  separator); the root directory and the working directory always exist and
  are never entries of the map;
* no element of a path other than the last is a symbolic link: a lookup below
  a symbolic link is reported like one below a file; an entry of the map
  exists, whatever the map holds above it;
* the process may read and write every entry.  `Stat` fails in two ways: with
  "does not exist", or with an error for which `os.IsNotExist` is false, when
  the path lies below an entry that is not a directory (`ENOTDIR`) or leads
  through more than 40 symbolic links (`ELOOP`); of the other calls the source
  only tests the error for nil;
* a function of the program that dereferences a nil `os.FileInfo` panics, which
  ends the process; `os.Open` on a named pipe never returns, since no other
  process writes to it;
* times are nanoseconds since the Unix epoch; the clock does not advance
  during a run and reading does not update access times;
* a send on the `copyTasks` channel never blocks, and `main` is modelled under
  the schedule in which the single worker runs once the traversal is over;
  `filepath.Walk` is modelled by the order in which it visits the paths, which
  is a parameter; a run that does not complete (`log.Fatalf`, a panic, a call
  that never returns) has the result `none`;
* `os.FileMode` is kept as its two components, the type bits and the remaining
  (permission, setuid, setgid, sticky) bits, so that `m1 != m2` on modes is
  inequality of the pair; `Lstat` reports the permission bits of a symbolic
  link as `0777`, as Linux does.
-/

namespace ParallelSync

/-- Go strings, as sequences of characters. -/
abbrev Path := List Char

/-- One byte of file content. -/
abbrev Byte := Nat

/-! ## `strings.Replace(s, old, new, 1)` -/

/-- `strings.Index(s, substr)`: the position of the first occurrence of
`substr` in `s`, if any. -/
def stringsIndex (substr : Path) : Path → Option Nat
  | [] => if substr.isEmpty then some 0 else none
  | c :: t =>
    if substr.isPrefixOf (c :: t) then some 0
    else (stringsIndex substr t).map (· + 1)

/-- `strings.Replace(s, old, new, 1)`: `s` with its first occurrence of `old`
replaced by `new`; `s` itself when `old == new` or `old` does not occur.  An
empty `old` matches at the beginning of `s`. -/
def stringsReplace1 (s old new : Path) : Path :=
  if old = new then s
  else
    match stringsIndex old s with
    | none => s
    | some j => s.take j ++ new ++ s.drop (j + old.length)

/-! ## Data model -/

/-- The type bits of an `os.FileMode`. -/
inductive FileType
  | regular
  | dir
  | symlink
  | device
  | charDevice
  | namedPipe
  | socket
  deriving DecidableEq, Repr

/-- An `os.FileMode`: type bits and permission bits. -/
structure FileMode where
  typ : FileType
  perm : Nat
  deriving DecidableEq, Repr

/-- `FileMode.IsDir`. -/
def FileMode.IsDir (m : FileMode) : Bool := decide (m.typ = FileType.dir)

/-- The source's `fileInfo` struct. -/
structure fileInfo where
  Mtime : Int
  Atime : Int
  UID : Nat
  GID : Nat
  Mode : FileMode
  deriving DecidableEq, Repr

/-- The zero value of `time.Time`, 1 January of the year 1. -/
def zeroTime : Int := -62135596800000000000

/-- The zero value `fileInfo{}`. -/
def fileInfo.zero : fileInfo := ⟨zeroTime, zeroTime, 0, 0, ⟨FileType.regular, 0⟩⟩

/-- The source's `copyTask` struct. -/
structure copyTask where
  From : Path
  To : Path
  Bailout : Bool
  deriving DecidableEq, Repr

/-- The source's `chunkSize`, as set in `main`. -/
def chunkSize : Nat := 4 * 1024

/-- The source's `copyThreads`, as set in `main`. -/
def copyThreads : Nat := 1

/-- One entry of the file system.  `data` is the content of a regular file
(what a special file yields when read; for a directory only its length is
observed, as `Size()`), `target` the target of a symbolic link. -/
structure Node where
  typ : FileType
  perm : Nat
  uid : Nat
  gid : Nat
  mtime : Int
  atime : Int
  data : List Byte
  target : Path
  deriving DecidableEq, Repr

/-- What an `os.FileInfo` (with its `Sys()` record) exposes. -/
structure FileInfo where
  size : Nat
  mode : FileMode
  modTime : Int
  atime : Int
  uid : Nat
  gid : Nat
  deriving DecidableEq, Repr

/-- `FileInfo.IsDir`. -/
def FileInfo.IsDir (i : FileInfo) : Bool := i.mode.IsDir

/-- The mode `Lstat`/`Stat` report for a node. -/
def Node.mode (n : Node) : FileMode :=
  if n.typ = FileType.symlink then ⟨FileType.symlink, 0o777⟩ else ⟨n.typ, n.perm⟩

/-- The length `Size()` reports: of the target for a symbolic link, of the
content otherwise. -/
def Node.size (n : Node) : Nat :=
  if n.typ = FileType.symlink then n.target.length else n.data.length

/-- The `os.FileInfo` of a node. -/
def Node.info (n : Node) : FileInfo :=
  ⟨n.size, n.mode, n.mtime, n.atime, n.uid, n.gid⟩

/-- The file system: a finite map from paths to nodes (first match wins). -/
abbrev FS := List (Path × Node)

/-- The identity of the running process and its clock. -/
structure Proc where
  euid : Nat
  egid : Nat
  umask : Nat
  now : Int
  deriving DecidableEq, Repr

/-- The lines the program writes with `log.Printf`, one constructor per format
string. -/
inductive LogLine
  | copying (srcPath dstPath : Path)
  | checking (srcPath : Path)
  | removingDestination (dstPath : Path)
  | creatingDirectory (dstPath : Path)
  | creatingSymlink (dstPath : Path)
  | replacingSymlink (dstPath : Path)
  | copyingMetadata (src dst : Path)
  | copyingFile (src dst : Path)
  deriving DecidableEq, Repr

/-- The state the program acts on. -/
structure State where
  fs : FS
  proc : Proc
  copyTasks : List copyTask
  log : List LogLine
  deriving DecidableEq, Repr

/-- `log.Printf`. -/
def State.logf (st : State) (l : LogLine) : State := { st with log := st.log ++ [l] }

/-! ## The file system -/

/-- The node stored at a path, if any. -/
def FS.find : FS → Path → Option Node
  | [], _ => none
  | (q, n) :: rest, p => if q = p then some n else FS.find rest p

/-- The file system without the entry at `p`. -/
def FS.erase (fs : FS) (p : Path) : FS := fs.filter (fun e => decide (e.1 ≠ p))

/-- The file system with `n` stored at `p`. -/
def FS.put (fs : FS) (p : Path) (n : Node) : FS := (p, n) :: fs.erase p

/-- Whether `q` is `root` or lies below it. -/
def isUnder (root q : Path) : Bool := decide (q = root) || (root ++ ['/']).isPrefixOf q

/-- The file system without `root` and everything below it. -/
def FS.eraseTree (fs : FS) (root : Path) : FS := fs.filter (fun e => !isUnder root e.1)

/-- Whether some entry lies below `p`. -/
def FS.hasChildren (fs : FS) (p : Path) : Bool :=
  fs.any (fun e => (p ++ ['/']).isPrefixOf e.1)

/-- The path of the directory holding `p`: `p` without trailing separators,
its last element and the separator before it (`path[:j-1]` in `os.MkdirAll`).
Empty for an entry of the root or of the working directory. -/
def parentOf (p : Path) : Path :=
  (((p.reverse.dropWhile (· == '/')).dropWhile (· != '/')).drop 1).reverse

/-- The path a symbolic link at `link` with target `target` refers to. -/
def linkTarget (link target : Path) : Path :=
  if target.head? = some '/' then target
  else
    match parentOf link with
    | [] => if link.head? = some '/' then '/' :: target else target
    | c :: par => (c :: par) ++ '/' :: target

/-- Follow symbolic links at the last element of `p`, at most `k` of them:
the path reached, or `none` when it is a symbolic link still. -/
def resolve : Nat → FS → Path → Option Path
  | 0, fs, p =>
    match fs.find p with
    | some n => if n.typ = FileType.symlink then none else some p
    | none => some p
  | k + 1, fs, p =>
    match fs.find p with
    | some n =>
      if n.typ = FileType.symlink then resolve k fs (linkTarget p n.target) else some p
    | none => some p

/-- The number of symbolic links followed before giving up. -/
def maxSymlinks : Nat := 40

/-- The entry a path refers to once symbolic links are followed. -/
def statNode (fs : FS) (p : Path) : Option (Path × Node) :=
  match resolve maxSymlinks fs p with
  | none => none
  | some q =>
    match fs.find q with
    | none => none
    | some n => some (q, n)

/-- `os.Lstat`; `none` when it returns an error, which the source only tests
for nil. -/
def Lstat (fs : FS) (p : Path) : Option FileInfo := (fs.find p).map Node.info

/-- The nearest entry above `p`: the entry at the first of `parentOf p`,
`parentOf (parentOf p)`, ... that exists. -/
def nodeAbove : Nat → FS → Path → Option Node
  | 0, _, _ => none
  | k + 1, fs, p =>
    if parentOf p = [] then none
    else
      match fs.find (parentOf p) with
      | some n => some n
      | none => nodeAbove k fs (parentOf p)

/-- Whether `p` lies below an entry that is not a directory: the nearest entry
above `p` is a file, a special file or a symbolic link. -/
def belowNonDir (fs : FS) (p : Path) : Bool :=
  match nodeAbove p.length fs p with
  | some n => decide (n.typ ≠ FileType.dir)
  | none => false

/-- The result of `os.Stat`: the `os.FileInfo`, an error for which
`os.IsNotExist` is true, or an error for which it is false (`ENOTDIR`,
`ELOOP`); in both error cases the `os.FileInfo` is nil. -/
inductive StatResult
  | ok (i : FileInfo)
  | notExist
  | failed
  deriving DecidableEq, Repr

/-- `os.Stat`. -/
def Stat (fs : FS) (p : Path) : StatResult :=
  match resolve maxSymlinks fs p with
  | none => StatResult.failed
  | some q =>
    match fs.find q with
    | some n => StatResult.ok n.info
    | none => if belowNonDir fs q then StatResult.failed else StatResult.notExist

/-- Whether an entry can be created at `p`: `p` is not empty and the directory
holding it exists. -/
def canCreateAt (fs : FS) (p : Path) : Bool :=
  decide (p ≠ []) &&
    (decide (parentOf p = []) ||
      match Stat fs (parentOf p) with
      | StatResult.ok i => i.IsDir
      | _ => false)

/-- A node the process creates now. -/
def Proc.newNode (pr : Proc) (typ : FileType) (perm : Nat) (target : Path) : Node :=
  ⟨typ, perm, pr.euid, pr.egid, pr.now, pr.now, [], target⟩

/-- The bits of `perm` the umask leaves. -/
def Proc.masked (pr : Proc) (perm : Nat) : Nat := perm &&& (0o7777 ^^^ (pr.umask &&& 0o777))

/-- `os.Readlink`, with the error dropped: the empty string unless `p` is a
symbolic link. -/
def Readlink (fs : FS) (p : Path) : Path :=
  match fs.find p with
  | some n => if n.typ = FileType.symlink then n.target else []
  | none => []

/-- `os.RemoveAll`: remove `p` and everything below it; no error when `p` does
not exist. -/
def RemoveAll (st : State) (p : Path) : State := { st with fs := st.fs.eraseTree p }

/-- `os.Remove`: remove the file, symbolic link or empty directory at `p`.
The second component is `true` when the call failed. -/
def Remove (st : State) (p : Path) : State × Bool :=
  match st.fs.find p with
  | none => (st, true)
  | some n =>
    if n.typ = FileType.dir && st.fs.hasChildren p then (st, true)
    else ({ st with fs := st.fs.erase p }, false)

/-- `os.Symlink(target, p)`: fails when `p` exists or cannot be created. -/
def Symlink (st : State) (target p : Path) : State × Bool :=
  match st.fs.find p with
  | some _ => (st, true)
  | none =>
    if canCreateAt st.fs p then
      ({ st with fs := st.fs.put p (st.proc.newNode FileType.symlink 0o777 target) }, false)
    else (st, true)

/-- `os.Mkdir(p, perm)`: fails when `p` exists or cannot be created.  Of `perm`
the permission bits and the sticky bit are used, less the umask. -/
def Mkdir (st : State) (p : Path) (perm : FileMode) : State × Bool :=
  match st.fs.find p with
  | some _ => (st, true)
  | none =>
    if canCreateAt st.fs p then
      let n := st.proc.newNode FileType.dir (st.proc.masked (perm.perm &&& 0o1777)) []
      ({ st with fs := st.fs.put p n }, false)
    else (st, true)

/-- The recursion of `os.MkdirAll`, bounded by the length of the path. -/
def MkdirAllAux : Nat → State → Path → FileMode → State × Bool
  | 0, st, _, _ => (st, true)
  | k + 1, st, p, perm =>
    match Stat st.fs p with
    | StatResult.ok i => (st, !i.IsDir)
    | _ =>
      let r :=
        if parentOf p ≠ [] then MkdirAllAux k st (parentOf p) perm else (st, false)
      if r.2 then r
      else
        let m := Mkdir r.1 p perm
        if m.2 then
          match Lstat m.1.fs p with
          | some i => (m.1, !i.IsDir)
          | none => (m.1, true)
        else m

/-- `os.MkdirAll(p, perm)`: create `p` and the missing directories above it. -/
def MkdirAll (st : State) (p : Path) (perm : FileMode) : State × Bool :=
  MkdirAllAux (p.length + 1) st p perm

/-- Apply `f` to the node `name` refers to (symbolic links followed); fails
when there is none. -/
def updateNode (st : State) (name : Path) (f : Node → Node) : State × Bool :=
  match statNode st.fs name with
  | none => (st, true)
  | some (q, n) => ({ st with fs := st.fs.put q (f n) }, false)

/-- `os.Chtimes`: a zero `time.Time` leaves the time of the file as it is. -/
def Chtimes (st : State) (name : Path) (atime mtime : Int) : State × Bool :=
  updateNode st name (fun n =>
    { n with atime := if atime = zeroTime then n.atime else atime,
             mtime := if mtime = zeroTime then n.mtime else mtime })

/-- `os.Chown`. -/
def Chown (st : State) (name : Path) (uid gid : Nat) : State × Bool :=
  updateNode st name (fun n => { n with uid := uid, gid := gid })

/-- `os.Chmod`: sets the permission bits; the type bits of `mode` are ignored. -/
def Chmod (st : State) (name : Path) (mode : FileMode) : State × Bool :=
  updateNode st name (fun n => { n with perm := mode.perm })

/-- The result of a call that may fail or never return. -/
inductive Call (α : Type)
  | ok (a : α)
  | error
  | blocks
  deriving DecidableEq, Repr

/-- `os.Open`: the path of the opened entry.  It fails when nothing exists and
on a socket (`ENXIO`), and does not return on a named pipe. -/
def Open (fs : FS) (name : Path) : Call Path :=
  match statNode fs name with
  | none => Call.error
  | some (q, n) =>
    if n.typ = FileType.namedPipe then Call.blocks
    else if n.typ = FileType.socket then Call.error
    else Call.ok q

/-- `os.Create`: truncate the regular file `name` refers to, or create it with
mode `0666` less the umask.  Fails for a directory, for a socket and where
nothing can be created.  Returns the path of the opened entry. -/
def Create (st : State) (name : Path) : Option (State × Path) :=
  match resolve maxSymlinks st.fs name with
  | none => none
  | some q =>
    match st.fs.find q with
    | some n =>
      if n.typ = FileType.dir ∨ n.typ = FileType.socket then none
      else if n.typ = FileType.regular then
        some ({ st with fs := st.fs.put q { n with data := [], mtime := st.proc.now } }, q)
      else some (st, q)
    | none =>
      if canCreateAt st.fs q then
        let n := st.proc.newNode FileType.regular (st.proc.masked 0o666) []
        some ({ st with fs := st.fs.put q n }, q)
      else none

/-- The number of bytes a pipe holds before a write to it blocks. -/
def pipeCapacity : Nat := 65536

/-- `io.Copy(out, in)` on two opened entries: append what `in` yields to the
regular file `out`.  A device swallows it; so does a named pipe, which nobody
reads, up to its capacity, beyond which the write does not return.  Fails
when `in` is a directory. -/
def ioCopy (st : State) (out inp : Path) : Call State :=
  match st.fs.find inp, st.fs.find out with
  | some i, some o =>
    if i.typ = FileType.dir then Call.error
    else if o.typ = FileType.regular then
      Call.ok
        { st with fs := st.fs.put out { o with data := o.data ++ i.data, mtime := st.proc.now } }
    else if o.typ = FileType.namedPipe ∧ pipeCapacity < i.data.length then Call.blocks
    else Call.ok st
  | _, _ => Call.error

/-- Whether `out.Sync()` fails: a character device and a pipe cannot be
synced (`EINVAL`). -/
def syncFails (fs : FS) (out : Path) : Bool :=
  match fs.find out with
  | some o => decide (o.typ = FileType.charDevice ∨ o.typ = FileType.namedPipe)
  | none => true

/-! ## The program -/

/-- The source's `getFileMetadata`.  The second component is `true` when an
error is returned.  `none` is the panic of `statFile.Sys()` on the nil
`os.FileInfo` of an error other than "does not exist". -/
def getFileMetadata (fs : FS) (filename : Path) : Option (fileInfo × Bool) :=
  match Stat fs filename with
  | StatResult.notExist => some (fileInfo.zero, true)
  | StatResult.failed => none
  | StatResult.ok statFile =>
    some (⟨statFile.modTime, statFile.atime, statFile.uid, statFile.gid, statFile.mode⟩, false)

/-- The source's `setFileMetadata`: `Chtimes`, then `Chown`, then `Chmod`,
returning at the first error.  The second component is `true` when an error
is returned. -/
def setFileMetadata (st : State) (filename : Path) (finfo : fileInfo) : State × Bool :=
  let r1 := Chtimes st filename finfo.Atime finfo.Mtime
  if r1.2 then r1
  else
    let r2 := Chown r1.1 filename finfo.UID finfo.GID
    if r2.2 then r2
    else Chmod r2.1 filename finfo.Mode

/-- The body of the source's `copyFileMetadata`; both errors are dropped.  The
second component is `true` when `getFileMetadata` panics. -/
def copyFileMetadataRun (src dst : Path) (st : State) : State × Bool :=
  let st1 := st.logf (LogLine.copyingMetadata src dst)
  match getFileMetadata st1.fs src with
  | none => (st1, true)
  | some (finfo, _) => ((setFileMetadata st1 dst finfo).1, false)

/-- The source's `copyFileMetadata`: the state when it returns or panics. -/
def copyFileMetadata (src dst : Path) (st : State) : State := (copyFileMetadataRun src dst st).1

/-- How `copyFileData` ends: with its local `err` nil, with `err` not nil, or
in a call that never returns. -/
inductive CopyEnd
  | done
  | failed
  | blocked
  deriving DecidableEq, Repr

/-- The body of the source's `copyFileData`, with how it ends.  Closing the
two files changes nothing in the model. -/
def copyFileDataErr (src dst : Path) (st : State) : State × CopyEnd :=
  let st1 := st.logf (LogLine.copyingFile src dst)
  match Open st1.fs src with
  | Call.error => (st1, CopyEnd.failed)
  | Call.blocks => (st1, CopyEnd.blocked)
  | Call.ok inp =>
    match Create st1 dst with
    | none => (st1, CopyEnd.failed)
    | some (st2, out) =>
      match ioCopy st2 out inp with
      | Call.error => (st2, CopyEnd.failed)
      | Call.blocks => (st2, CopyEnd.blocked)
      | Call.ok st3 => (st3, if syncFails st3.fs out then CopyEnd.failed else CopyEnd.done)

/-- The source's `copyFileData`, which returns nothing: the state when it
returns or blocks. -/
def copyFileData (src dst : Path) (st : State) : State := (copyFileDataErr src dst st).1

/-- The source's `equalMetadata`; `none` is the panic of `getFileMetadata`. -/
def equalMetadata (fs : FS) (file1 file2 : Path) : Option Bool :=
  if file1 = file2 then some true
  else
    match Stat fs file1, Stat fs file2 with
    | StatResult.notExist, errFile2 => some (decide (errFile2 = StatResult.notExist))
    | _, StatResult.notExist => some false
    | _, _ =>
      match getFileMetadata fs file1, getFileMetadata fs file2 with
      | some (finfo1, _), some (finfo2, _) =>
        if finfo1.Mtime ≠ finfo2.Mtime ∨ finfo1.Atime ≠ finfo2.Atime ∨ finfo1.UID ≠ finfo2.UID
            ∨ finfo1.GID ≠ finfo2.GID ∨ finfo1.Mode ≠ finfo2.Mode then some false
        else some true
      | _, _ => none

/-- The source's `equalSize`; `none` is the panic of `Size()` on the nil
`os.FileInfo` of an error other than "does not exist". -/
def equalSize (fs : FS) (file1 file2 : Path) : Option Bool :=
  if file1 = file2 then some true
  else
    match Stat fs file1, Stat fs file2 with
    | StatResult.notExist, errFile2 => some (decide (errFile2 = StatResult.notExist))
    | _, StatResult.notExist => some false
    | StatResult.ok stat1, StatResult.ok stat2 =>
      if stat1.size ≠ stat2.size then some false else some true
    | _, _ => none

/-- The destination path `verifyPath` computes for a source path:
`strings.Replace(srcPath, src, dst, 1)`. -/
def mappedPath (src dst srcPath : Path) : Path := stringsReplace1 srcPath src dst

/-- The type-mismatch guard of the source's `verifyPath` (lines 93-98). -/
def removeMismatch (srcInfo : FileInfo) (dstInfo : Option FileInfo) (dstPath : Path)
    (st : State) : State :=
  match dstInfo with
  | some di =>
    if srcInfo.mode ≠ di.mode then
      RemoveAll (st.logf (LogLine.removingDestination dstPath)) dstPath
    else st
  | none => st

/-- Send on the `copyTasks` channel. -/
def State.send (st : State) (t : copyTask) : State := { st with copyTasks := st.copyTasks ++ [t] }

/-- The body of the source's `verifyPath`.  `dstInfo` is read once, before the
guard, and `dstInfo.isNone` stands for `dstInfoErr != nil`.  The third
parameter of the source, `err`, is not used by its body and is left out.  The
second component is `true` when one of the calls panics. -/
def verifyPathRun (src dst : Path) (srcPath : Path) (srcInfo : FileInfo) (st : State) :
    State × Bool :=
  let dstPath := mappedPath src dst srcPath
  let dstInfo := Lstat st.fs dstPath
  let st1 := removeMismatch srcInfo dstInfo dstPath st
  if srcInfo.IsDir then
    if dstInfo.isNone then
      let st2 := st1.logf (LogLine.creatingDirectory dstPath)
      copyFileMetadataRun srcPath dstPath (MkdirAll st2 dstPath srcInfo.mode).1
    else
      match equalMetadata st1.fs srcPath dstPath with
      | none => (st1, true)
      | some false => copyFileMetadataRun srcPath dstPath st1
      | some true => (st1, false)
  else if srcInfo.mode.typ = FileType.symlink then
    let srcSymlink := Readlink st1.fs srcPath
    if dstInfo.isNone then
      let st2 := st1.logf (LogLine.creatingSymlink dstPath)
      ((Symlink st2 (stringsReplace1 srcSymlink src dst) dstPath).1, false)
    else
      let dstSymlink := Readlink st1.fs dstPath
      if dstSymlink ≠ stringsReplace1 srcSymlink src dst then
        let st2 := st1.logf (LogLine.replacingSymlink dstPath)
        ((Symlink (Remove st2 dstPath).1 (stringsReplace1 srcSymlink src dst) dstPath).1, false)
      else (st1, false)
  else
    match equalSize st1.fs srcPath dstPath with
    | none => (st1, true)
    | some false => (st1.send ⟨srcPath, dstPath, false⟩, false)
    | some true =>
      match equalMetadata st1.fs srcPath dstPath with
      | none => (st1, true)
      | some false => copyFileMetadataRun srcPath dstPath st1
      | some true => (st1, false)

/-- The source's `verifyPath`: the state when it returns or panics. -/
def verifyPath (src dst : Path) (srcPath : Path) (srcInfo : FileInfo) (st : State) : State :=
  (verifyPathRun src dst srcPath srcInfo st).1

/-- The source's `visitPath`.  `srcInfo` is `none` when the walk passes an
error; `log.Fatalf` ends the process, and so does a panic of `verifyPath`:
the result is `none`. -/
def visitPath (src dst : Path) (srcPath : Path) (srcInfo : Option FileInfo) (st : State) :
    Option State :=
  match srcInfo with
  | none => none
  | some info =>
    let r := verifyPathRun src dst srcPath info (st.logf (LogLine.checking srcPath))
    if r.2 then none else some r.1

/-- The calls `filepath.Walk` makes: it stats each path of its visiting order
in turn and hands the result to `visitPath`. -/
def walk (src dst : Path) : List Path → State → Option State
  | [], st => some st
  | p :: rest, st =>
    match visitPath src dst p (Lstat st.fs p) st with
    | none => none
    | some st1 => walk src dst rest st1

/-- How the worker ends on the jobs it receives: it has returned, it has found
the channel empty and keeps polling, a metadata copy has panicked, or a
content copy never returns. -/
inductive WorkerEnd
  | stopped
  | polling
  | panicked
  | blocked
  deriving DecidableEq, Repr

/-- The source's `startCopyThread` on the sequence of jobs it receives from
the channel, with how it ends. -/
def startCopyThread : List copyTask → State → State × WorkerEnd
  | [], st => (st, WorkerEnd.polling)
  | task :: rest, st =>
    if task.Bailout then (st, WorkerEnd.stopped)
    else
      let st1 := st.logf (LogLine.copying task.From task.To)
      let c := copyFileDataErr task.From task.To st1
      if c.2 = CopyEnd.blocked then (c.1, WorkerEnd.blocked)
      else
        let m := copyFileMetadataRun task.From task.To c.1
        if m.2 then (m.1, WorkerEnd.panicked)
        else startCopyThread rest m.1

/-- The termination job `copyTask{Bailout: true}`. -/
def bailout : copyTask := ⟨[], [], true⟩

/-- What `main` sends on the channel: the jobs of the traversal, then one
termination job per worker.  `none` when the traversal ended the process. -/
def mainQueue (src dst : Path) (visits : List Path) (st : State) : Option State :=
  match walk src dst visits { st with copyTasks := [] } with
  | none => none
  | some st1 => some { st1 with copyTasks := st1.copyTasks ++ List.replicate copyThreads bailout }

/-- The source's `main` under the schedule in which the single worker runs
once the traversal is over: the worker receives everything `main` has sent,
and `main` returns when the worker has. -/
def main (src dst : Path) (visits : List Path) (st : State) : Option State :=
  match mainQueue src dst visits st with
  | none => none
  | some st1 =>
    let w := startCopyThread st1.copyTasks st1
    if w.2 = WorkerEnd.stopped then some { w.1 with copyTasks := [] } else none

/-! ## Content comparison -/

/-- What `f.Read(b)` returns for a buffer of `chunkSize` zero bytes on an
opened entry with `rest` still unread: the buffer afterwards, whether the
error is `io.EOF`, and what is left to read.  A read into an empty buffer
returns `0, nil`. -/
def fileRead (chunkSize : Nat) (rest : List Byte) : List Byte × Bool × List Byte :=
  if chunkSize = 0 then ([], false, rest)
  else if rest = [] then (List.replicate chunkSize 0, true, [])
  else
    (rest.take chunkSize ++ List.replicate (chunkSize - (rest.take chunkSize).length) 0,
      false, rest.drop chunkSize)

/-- The loop of the source's `equalData` on the contents of two opened regular
files; `none` when `fuel` iterations were not enough. -/
def equalDataLoop (chunkSize : Nat) : Nat → List Byte → List Byte → Option Bool
  | 0, _, _ => none
  | fuel + 1, f1, f2 =>
    let r1 := fileRead chunkSize f1
    let r2 := fileRead chunkSize f2
    if r1.2.1 || r2.2.1 then
      if r1.2.1 && r2.2.1 then some true else some false
    else if r1.1 ≠ r2.1 then some false
    else equalDataLoop chunkSize fuel r1.2.2 r2.2.2

/-- The result of a function that may end the process (`log.Fatal`, a panic) or
never return. -/
inductive Outcome
  | value (b : Bool)
  | fatal
  | diverges
  deriving DecidableEq, Repr

/-- The source's `equalData`: `log.Fatal` when a file cannot be opened or a
read fails with an error other than `io.EOF`; opening a named pipe does not
return.  Each iteration with a positive chunk size consumes a byte of the
first file or returns, so its length bounds the iterations. -/
def equalData (chunkSize : Nat) (fs : FS) (file1 file2 : Path) : Outcome :=
  match Open fs file1 with
  | Call.error => Outcome.fatal
  | Call.blocks => Outcome.diverges
  | Call.ok f1 =>
    match Open fs file2 with
    | Call.error => Outcome.fatal
    | Call.blocks => Outcome.diverges
    | Call.ok f2 =>
      match fs.find f1, fs.find f2 with
      | some n1, some n2 =>
        if chunkSize = 0 then Outcome.diverges
        else if n1.typ = FileType.dir ∨ n2.typ = FileType.dir then
          -- reading a directory fails: `false` when the other read reports `io.EOF`
          if (n1.typ ≠ FileType.dir ∧ n1.data = []) ∨ (n2.typ ≠ FileType.dir ∧ n2.data = []) then
            Outcome.value false
          else Outcome.fatal
        else
          match equalDataLoop chunkSize (n1.data.length + 1) n1.data n2.data with
          | some b => Outcome.value b
          | none => Outcome.diverges
      | _, _ => Outcome.fatal

/-- The source's `compareFile`; a panic of `equalMetadata` ends the process. -/
def compareFile (chunkSize : Nat) (fs : FS) (file1 file2 : Path) (shallow : Bool) : Outcome :=
  match equalMetadata fs file1 file2 with
  | none => Outcome.fatal
  | some b =>
    if shallow then Outcome.value b
    else if b then equalData chunkSize fs file1 file2
    else Outcome.value false

/-! ## Definitions used to state the properties

Besides relations between states and the concrete file systems used below,
this section defines when a filesystem call of the program fails
(`verifyPathFails`, `walkFails`, `workerFails`, `mainFails`): the source drops
these errors, so they are not part of the results of the functions above.  A
call that panics or never returns counts as failing. -/

/-- Two states that differ at most in their file system. -/
def SameButFs (st st1 : State) : Prop :=
  st1.proc = st.proc ∧ st1.copyTasks = st.copyTasks ∧ st1.log = st.log

/-- What the worker does for one job. -/
def runJob (st : State) (t : copyTask) : State :=
  copyFileMetadata t.From t.To (copyFileData t.From t.To (st.logf (LogLine.copying t.From t.To)))

/-- The lines the worker logs for one job. -/
def jobLines (t : copyTask) : List LogLine :=
  [LogLine.copying t.From t.To, LogLine.copyingFile t.From t.To,
    LogLine.copyingMetadata t.From t.To]

/-- The metadata `getFileMetadata` reads from a node. -/
def Node.metadata (n : Node) : fileInfo := ⟨n.mtime, n.atime, n.uid, n.gid, n.mode⟩

/-- The node `setFileMetadata` leaves: times (unless zero), owner, group and
permission bits are those of `fi`. -/
def Node.withMetadata (m : Node) (fi : fileInfo) : Node :=
  { m with atime := if fi.Atime = zeroTime then m.atime else fi.Atime,
           mtime := if fi.Mtime = zeroTime then m.mtime else fi.Mtime,
           uid := fi.UID, gid := fi.GID, perm := fi.Mode.perm }

/-- What a node is apart from its times and owner. -/
def Node.shape (n : Node) : FileType × Nat × List Byte × Path := (n.typ, n.perm, n.data, n.target)

/-- Two file systems with the same entries, up to times and owners. -/
def SameShape (fs fs1 : FS) : Prop :=
  ∀ q : Path, (fs1.find q).map Node.shape = (fs.find q).map Node.shape

/-- The destination of the source entry at `p` is as a completed run leaves
it: an entry of the same mode; for a regular file of the same length, for a
symbolic link with the rewritten target.  The source is a regular file, a
directory or a symbolic link. -/
def Mirrored (s d : Path) (fs : FS) (p : Path) : Prop :=
  ∃ n m : Node, fs.find p = some n ∧ fs.find (mappedPath s d p) = some m ∧ n.mode = m.mode ∧
    ((n.typ = FileType.regular ∧ m.data.length = n.data.length) ∨ n.typ = FileType.dir ∨
      (n.typ = FileType.symlink ∧ m.target = stringsReplace1 n.target s d))

/-- An entry owned by user and group 1000, modified at time 10 and accessed at
time 20. -/
def sampleNode (typ : FileType) (perm : Nat) (data : List Byte) (target : Path) : Node :=
  ⟨typ, perm, 1000, 1000, 10, 20, data, target⟩

/-- A process running as root with umask 022 at time 100. -/
def sampleProc : Proc := ⟨0, 0, 0o22, 100⟩

/-- Source `/a` with the empty directory `/a/d`; destination `/b` where `/b/d`
is a regular file. -/
def fileInPlaceOfDir : State :=
  ⟨[("/a".toList, sampleNode FileType.dir 0o755 [] []),
    ("/a/d".toList, sampleNode FileType.dir 0o755 [] []),
    ("/b".toList, sampleNode FileType.dir 0o755 [] []),
    ("/b/d".toList, sampleNode FileType.regular 0o644 [7] [])], sampleProc, [], []⟩

/-- Source directory `/a/d` with mode `0755`; destination directory `/b/d`
with mode `0700`, holding the file `/b/d/keep`. -/
def dirWithOtherPerm : State :=
  ⟨[("/a".toList, sampleNode FileType.dir 0o755 [] []),
    ("/a/d".toList, sampleNode FileType.dir 0o755 [] []),
    ("/b".toList, sampleNode FileType.dir 0o755 [] []),
    ("/b/d".toList, sampleNode FileType.dir 0o700 [] []),
    ("/b/d/keep".toList, sampleNode FileType.regular 0o644 [7] [])], sampleProc, [], []⟩

/-- Source file `/a/f` with mode `0644`; destination file `/b/f` of the same
length, times, owner and group, with mode `0600`. -/
def fileWithOtherPerm : State :=
  ⟨[("/a".toList, sampleNode FileType.dir 0o755 [] []),
    ("/a/f".toList, sampleNode FileType.regular 0o644 [1, 2, 3] []),
    ("/b".toList, sampleNode FileType.dir 0o755 [] []),
    ("/b/f".toList, sampleNode FileType.regular 0o600 [4, 5, 6] [])], sampleProc, [], []⟩

/-- Source file `/a/f` of three bytes; destination file `/b/f` of one byte. -/
def fileOfOtherSize : State :=
  ⟨[("/a".toList, sampleNode FileType.dir 0o755 [] []),
    ("/a/f".toList, sampleNode FileType.regular 0o644 [1, 2, 3] []),
    ("/b".toList, sampleNode FileType.dir 0o755 [] []),
    ("/b/f".toList, sampleNode FileType.regular 0o644 [9] [])], sampleProc, [], []⟩

/-- The source root `/b/a` lies inside the destination root `/b`: the file
`/b/a/a` is mapped to `/b/a`, the source root itself. -/
def sourceInsideDestination : State :=
  ⟨[("/b".toList, sampleNode FileType.dir 0o755 [] []),
    ("/b/a".toList, sampleNode FileType.dir 0o755 [0, 0] []),
    ("/b/a/a".toList, sampleNode FileType.regular 0o644 [7] [])], sampleProc, [], []⟩

/-- Source `/a` with the file `/a/f` and the symbolic link `/a/l` to it;
destination `/b` is an empty directory. -/
def linkToSource : State :=
  ⟨[("/a".toList, sampleNode FileType.dir 0o755 [] []),
    ("/a/f".toList, sampleNode FileType.regular 0o644 [1, 2, 3] []),
    ("/a/l".toList, sampleNode FileType.symlink 0o777 [] "/a/f".toList),
    ("/b".toList, sampleNode FileType.dir 0o755 [] [])], sampleProc, [], []⟩

/-- Source `/a` with the character device `/a/null`, which yields nothing when
read; destination `/b` is an empty directory. -/
def deviceInSource : State :=
  ⟨[("/a".toList, sampleNode FileType.dir 0o755 [] []),
    ("/a/null".toList, sampleNode FileType.charDevice 0o666 [] []),
    ("/b".toList, sampleNode FileType.dir 0o755 [] [])], sampleProc, [], []⟩

/-- Source file `/a/f`; the destination `/b/d` of the job is a directory with
other times, owner and mode. -/
def dirAsTarget : State :=
  ⟨[("/a".toList, sampleNode FileType.dir 0o755 [] []),
    ("/a/f".toList, sampleNode FileType.regular 0o644 [1, 2, 3] []),
    ("/b".toList, sampleNode FileType.dir 0o755 [] []),
    ("/b/d".toList, ⟨FileType.dir, 0o700, 0, 0, 1, 2, [], []⟩)], sampleProc, [], []⟩

/-- Two regular files: `/x` holds the byte 97, `/y` the bytes 97 and 0. -/
def trailingZeroFiles : FS :=
  [("/x".toList, sampleNode FileType.regular 0o644 [97] []),
    ("/y".toList, sampleNode FileType.regular 0o644 [97, 0] [])]

/-- Whether `os.Readlink` returns an error: `p` is not a symbolic link. -/
def ReadlinkFails (fs : FS) (p : Path) : Bool :=
  match fs.find p with
  | some n => decide (n.typ ≠ FileType.symlink)
  | none => true

/-- Whether `copyFileMetadata` panics or one of the two errors it drops is not
nil. -/
def copyFileMetadataFails (src dst : Path) (st : State) : Bool :=
  let st1 := st.logf (LogLine.copyingMetadata src dst)
  match getFileMetadata st1.fs src with
  | none => true
  | some (finfo, err) => err || (setFileMetadata st1 dst finfo).2

/-- Whether `verifyPath` panics or one of its calls whose error is dropped
(`MkdirAll`, `Readlink`, `Remove`, `Symlink` and those of `copyFileMetadata`)
fails.  The control flow is that of `verifyPath`. -/
def verifyPathFails (src dst : Path) (srcPath : Path) (srcInfo : FileInfo) (st : State) : Bool :=
  let dstPath := mappedPath src dst srcPath
  let dstInfo := Lstat st.fs dstPath
  let st1 := removeMismatch srcInfo dstInfo dstPath st
  if srcInfo.IsDir then
    if dstInfo.isNone then
      let m := MkdirAll (st1.logf (LogLine.creatingDirectory dstPath)) dstPath srcInfo.mode
      m.2 || copyFileMetadataFails srcPath dstPath m.1
    else
      match equalMetadata st1.fs srcPath dstPath with
      | none => true
      | some false => copyFileMetadataFails srcPath dstPath st1
      | some true => false
  else if srcInfo.mode.typ = FileType.symlink then
    let target := stringsReplace1 (Readlink st1.fs srcPath) src dst
    if dstInfo.isNone then
      ReadlinkFails st1.fs srcPath ||
        (Symlink (st1.logf (LogLine.creatingSymlink dstPath)) target dstPath).2
    else if Readlink st1.fs dstPath ≠ target then
      let r := Remove (st1.logf (LogLine.replacingSymlink dstPath)) dstPath
      ReadlinkFails st1.fs srcPath || ReadlinkFails st1.fs dstPath || r.2 ||
        (Symlink r.1 target dstPath).2
    else ReadlinkFails st1.fs srcPath || ReadlinkFails st1.fs dstPath
  else
    match equalSize st1.fs srcPath dstPath with
    | none => true
    | some false => false
    | some true =>
      match equalMetadata st1.fs srcPath dstPath with
      | none => true
      | some false => copyFileMetadataFails srcPath dstPath st1
      | some true => false

/-- Whether a call fails during the traversal. -/
def walkFails (src dst : Path) : List Path → State → Bool
  | [], _ => false
  | p :: rest, st =>
    match Lstat st.fs p with
    | none => true
    | some info =>
      verifyPathFails src dst p info (st.logf (LogLine.checking p)) ||
        walkFails src dst rest (verifyPath src dst p info (st.logf (LogLine.checking p)))

/-- Whether a call fails while the worker runs the jobs it receives. -/
def workerFails : List copyTask → State → Bool
  | [], _ => false
  | t :: rest, st =>
    if t.Bailout then false
    else
      decide ((copyFileDataErr t.From t.To (st.logf (LogLine.copying t.From t.To))).2 ≠
          CopyEnd.done) ||
        copyFileMetadataFails t.From t.To
          (copyFileData t.From t.To (st.logf (LogLine.copying t.From t.To))) ||
        workerFails rest (runJob st t)

/-- Whether the copy of one job returns: the content copy does not block and
the metadata copy does not panic. -/
def jobReturns (st : State) (t : copyTask) : Bool :=
  decide ((copyFileDataErr t.From t.To (st.logf (LogLine.copying t.From t.To))).2 ≠
      CopyEnd.blocked) &&
    !(copyFileMetadataRun t.From t.To
      (copyFileData t.From t.To (st.logf (LogLine.copying t.From t.To)))).2

/-- Whether the copy of every job before the first termination job returns. -/
def workerReturns : List copyTask → State → Bool
  | [], _ => true
  | t :: rest, st => t.Bailout || (jobReturns st t && workerReturns rest (runJob st t))

/-- Whether a filesystem call fails during a run of `main`. -/
def mainFails (src dst : Path) (visits : List Path) (st : State) : Bool :=
  match mainQueue src dst visits st with
  | none => true
  | some st1 =>
    walkFails src dst visits { st with copyTasks := [] } || workerFails st1.copyTasks st1

/-- The destination of the source entry at `p` is mirrored, or `p` is a
regular file whose copy job is among `jobs` and whose destination is absent
or a regular file. -/
def Settled (s d : Path) (fs : FS) (jobs : List copyTask) (p : Path) : Prop :=
  Mirrored s d fs p ∨
  (∃ n, fs.find p = some n ∧ n.typ = FileType.regular ∧
    (⟨p, mappedPath s d p, false⟩ : copyTask) ∈ jobs ∧
    (fs.find (mappedPath s d p) = none ∨
      ∃ m, fs.find (mappedPath s d p) = some m ∧ m.typ = FileType.regular))

/-- What a visit of the entry `n` with destination `dst` may change at the
path `q` between the file systems `fs` and `fs1`. -/
def Touched (n : Node) (dst : Path) (fs fs1 : FS) (q : Path) : Prop :=
  fs1.find q = fs.find q ∨ q = dst ∨ (n.typ = FileType.regular ∧ isUnder dst q = true) ∨
    (n.typ = FileType.dir ∧ fs.find q = none ∧ isUnder q dst = true)

/-- A source tree as a run can handle it: the visited paths lie under the
source root and hold regular files, directories and symbolic links; no visited
path lies at or below a destination path; only directories have visited paths
below them. -/
structure SourceTree (s d : Path) (visits : List Path) (fs : FS) : Prop where
  under : ∀ p ∈ visits, s.isPrefixOf p = true
  kind : ∀ p ∈ visits, (fs.find p).map Node.typ ∈
    [some FileType.regular, some FileType.dir, some FileType.symlink]
  apart : ∀ p ∈ visits, ∀ q ∈ visits, isUnder (mappedPath s d q) p = false
  tree : ∀ p ∈ visits, ∀ q ∈ visits, isUnder p q = true → q ≠ p →
    (fs.find p).map Node.typ = some FileType.dir

/-- What holds during a traversal once the paths of `V` have been visited:
the source is as it was, every visited entry is settled and the channel holds
copy jobs of regular source files only. -/
def WalkInv (s d : Path) (visits : List Path) (fs0 : FS) (V : List Path) (st : State) : Prop :=
  (∀ p ∈ visits, st.fs.find p = fs0.find p) ∧
  (∀ p ∈ V, Settled s d st.fs st.copyTasks p) ∧
  (∀ j ∈ st.copyTasks, ∃ p ∈ visits, j = ⟨p, mappedPath s d p, false⟩ ∧
    ∃ n, fs0.find p = some n ∧ n.typ = FileType.regular)

/-- Source `/a` with the file `/a/f.txt`, the empty directory `/a/d` and the
symbolic link `/a/link` to `f.txt`; destination `/b` is an empty directory. -/
def smallTree : State :=
  ⟨[("/a".toList, sampleNode FileType.dir 0o755 [] []),
    ("/a/d".toList, sampleNode FileType.dir 0o755 [] []),
    ("/a/f.txt".toList, sampleNode FileType.regular 0o644 [1, 2, 3] []),
    ("/a/link".toList, sampleNode FileType.symlink 0o777 [] "f.txt".toList),
    ("/b".toList, ⟨FileType.dir, 0o755, 0, 0, 30, 40, [], []⟩)], sampleProc, [], []⟩

/-- The order in which the entries of `smallTree` are visited. -/
def smallTreeVisits : List Path :=
  ["/a".toList, "/a/d".toList, "/a/f.txt".toList, "/a/link".toList]

/-- The state of a run on `smallTree` once `main` has sent its jobs. -/
def smallTreeQueued : State :=
  (mainQueue "/a".toList "/b".toList smallTreeVisits smallTree).getD smallTree

/-- Source `/a` with the named pipe `/a/e`, to which nobody writes, and the
file `/a/f`; destination `/b` is an empty directory. -/
def pipeInSource : State :=
  ⟨[("/a".toList, sampleNode FileType.dir 0o755 [] []),
    ("/a/e".toList, sampleNode FileType.namedPipe 0o644 [] []),
    ("/a/f".toList, sampleNode FileType.regular 0o644 [1, 2, 3] []),
    ("/b".toList, sampleNode FileType.dir 0o755 [] [])], sampleProc, [], []⟩

/-! ## Path mapping -/

theorem stringsIndex_append_self (s r : Path) : stringsIndex s (s ++ r) = some 0 := by
  cases h : s ++ r with
  | nil =>
    have hs : s = [] := (List.append_eq_nil.mp h).1
    simp [stringsIndex, hs]
  | cons c t =>
    have hp : s.isPrefixOf (c :: t) = true := by
      rw [← h]; simp
    simp [stringsIndex, hp]

theorem stringsReplace1_append (s d r : Path) : stringsReplace1 (s ++ r) s d = d ++ r := by
  unfold stringsReplace1
  by_cases h : s = d
  · simp [h]
  · simp [h, stringsIndex_append_self]

theorem mappedPath_append (s d r : Path) : mappedPath s d (s ++ r) = d ++ r :=
  stringsReplace1_append s d r

/-! ## Content comparison -/

theorem equalDataLoop_trailing_zero (k b : Nat) :
    equalDataLoop (k + 2) 2 [b] [b, 0] = some true := by
  simp [equalDataLoop, fileRead, List.replicate_succ]

theorem equalData_trailing_zero (k b : Nat) (fs : FS) (file1 file2 q1 q2 : Path) (n1 n2 : Node)
    (h1 : Open fs file1 = Call.ok q1) (h2 : Open fs file2 = Call.ok q2)
    (f1 : fs.find q1 = some n1) (f2 : fs.find q2 = some n2)
    (t1 : n1.typ = FileType.regular) (t2 : n2.typ = FileType.regular)
    (d1 : n1.data = [b]) (d2 : n2.data = [b, 0]) :
    equalData (k + 2) fs file1 file2 = Outcome.value true := by
  simp [equalData, h1, h2, f1, f2, t1, t2, d1, d2, equalDataLoop_trailing_zero]

/-! ## What the operations leave alone -/

theorem sameButFs_refl (st : State) : SameButFs st st := ⟨rfl, rfl, rfl⟩

theorem sameButFs_trans {a b c : State} (h1 : SameButFs a b) (h2 : SameButFs b c) :
    SameButFs a c :=
  ⟨h2.1.trans h1.1, h2.2.1.trans h1.2.1, h2.2.2.trans h1.2.2⟩

theorem sameButFs_withFs (st : State) (fs : FS) : SameButFs st { st with fs := fs } :=
  ⟨rfl, rfl, rfl⟩

theorem RemoveAll_same (st : State) (p : Path) : SameButFs st (RemoveAll st p) :=
  ⟨rfl, rfl, rfl⟩

theorem Remove_same (st : State) (p : Path) : SameButFs st (Remove st p).1 := by
  unfold Remove
  split
  · exact sameButFs_refl st
  · split
    · exact sameButFs_refl st
    · exact sameButFs_withFs st _

theorem Symlink_same (st : State) (t p : Path) : SameButFs st (Symlink st t p).1 := by
  unfold Symlink
  split
  · exact sameButFs_refl st
  · split
    · exact sameButFs_withFs st _
    · exact sameButFs_refl st

theorem Mkdir_same (st : State) (p : Path) (m : FileMode) : SameButFs st (Mkdir st p m).1 := by
  unfold Mkdir
  split
  · exact sameButFs_refl st
  · split
    · exact sameButFs_withFs st _
    · exact sameButFs_refl st

theorem MkdirAllAux_same (k : Nat) : ∀ (st : State) (p : Path) (m : FileMode),
    SameButFs st (MkdirAllAux k st p m).1 := by
  induction k with
  | zero => intro st p m; exact sameButFs_refl st
  | succ k ih =>
    intro st p m
    unfold MkdirAllAux
    split
    · exact sameButFs_refl st
    · have hr : SameButFs st
          (if parentOf p ≠ [] then MkdirAllAux k st (parentOf p) m else (st, false)).1 := by
        split
        · exact ih st _ m
        · exact sameButFs_refl st
      simp only []
      generalize (if parentOf p ≠ [] then MkdirAllAux k st (parentOf p) m else (st, false)) = r
        at hr
      have hm := sameButFs_trans hr (Mkdir_same r.1 p m)
      generalize Mkdir r.1 p m = mk at hm
      split
      · exact hr
      · split
        · split <;> exact hm
        · exact hm

theorem MkdirAll_same (st : State) (p : Path) (m : FileMode) :
    SameButFs st (MkdirAll st p m).1 := MkdirAllAux_same _ st p m

theorem updateNode_same (st : State) (p : Path) (f : Node → Node) :
    SameButFs st (updateNode st p f).1 := by
  unfold updateNode
  split
  · exact sameButFs_refl st
  · exact sameButFs_withFs st _

theorem setFileMetadata_same (st : State) (p : Path) (fi : fileInfo) :
    SameButFs st (setFileMetadata st p fi).1 := by
  unfold setFileMetadata
  have h1 : SameButFs st (Chtimes st p fi.Atime fi.Mtime).1 := updateNode_same _ _ _
  have h2 : SameButFs st (Chown (Chtimes st p fi.Atime fi.Mtime).1 p fi.UID fi.GID).1 :=
    sameButFs_trans h1 (updateNode_same _ _ _)
  simp only []
  split
  · exact h1
  · split
    · exact h2
    · exact sameButFs_trans h2 (updateNode_same _ _ _)

theorem Create_same (st st1 : State) (p q : Path) (h : Create st p = some (st1, q)) :
    SameButFs st st1 := by
  unfold Create at h
  split at h
  · exact absurd h (by simp)
  · split at h
    · split at h
      · exact absurd h (by simp)
      · split at h
        · simp only [Option.some.injEq, Prod.mk.injEq] at h
          rw [← h.1]; exact sameButFs_withFs st _
        · simp only [Option.some.injEq, Prod.mk.injEq] at h
          rw [← h.1]; exact sameButFs_refl st
    · split at h
      · simp only [Option.some.injEq, Prod.mk.injEq] at h
        rw [← h.1]; exact sameButFs_withFs st _
      · exact absurd h (by simp)

theorem ioCopy_same (st st1 : State) (o i : Path) (h : ioCopy st o i = Call.ok st1) :
    SameButFs st st1 := by
  unfold ioCopy at h
  split at h
  · split at h
    · exact absurd h (by simp)
    · split at h
      · simp only [Call.ok.injEq] at h
        rw [← h]; exact sameButFs_withFs st _
      · split at h
        · exact absurd h (by simp)
        · simp only [Call.ok.injEq] at h
          rw [← h]; exact sameButFs_refl st
  · exact absurd h (by simp)

/-! ## The worker -/

theorem logf_same_queue (st : State) (l : LogLine) :
    (st.logf l).copyTasks = st.copyTasks ∧ (st.logf l).proc = st.proc ∧ (st.logf l).fs = st.fs :=
  ⟨rfl, rfl, rfl⟩

theorem copyFileMetadata_same (src dst : Path) (st : State) :
    SameButFs (st.logf (LogLine.copyingMetadata src dst)) (copyFileMetadata src dst st) := by
  unfold copyFileMetadata copyFileMetadataRun
  simp only []
  split
  · exact sameButFs_refl _
  · exact setFileMetadata_same _ _ _

theorem copyFileDataErr_same (src dst : Path) (st : State) :
    SameButFs (st.logf (LogLine.copyingFile src dst)) (copyFileDataErr src dst st).1 := by
  unfold copyFileDataErr
  simp only []
  split
  · exact sameButFs_refl _
  · exact sameButFs_refl _
  · split
    · exact sameButFs_refl _
    · rename_i st2 out hc
      have h2 := Create_same _ _ _ _ hc
      split
      · exact h2
      · exact h2
      · rename_i st3 hi
        exact sameButFs_trans h2 (ioCopy_same _ _ _ _ hi)

theorem copyFileData_same (src dst : Path) (st : State) :
    SameButFs (st.logf (LogLine.copyingFile src dst)) (copyFileData src dst st) :=
  copyFileDataErr_same src dst st

theorem runJob_log (st : State) (t : copyTask) : (runJob st t).log = st.log ++ jobLines t := by
  unfold runJob
  rw [(copyFileMetadata_same _ _ _).2.2]
  show (copyFileData _ _ _).log ++ _ = _
  rw [(copyFileData_same _ _ _).2.2]
  simp [State.logf, jobLines]

theorem startCopyThread_cons (t : copyTask) (rest : List copyTask) (st : State)
    (hb : t.Bailout = false) (hr : jobReturns st t = true) :
    startCopyThread (t :: rest) st = startCopyThread rest (runJob st t) := by
  simp only [jobReturns, Bool.and_eq_true, decide_eq_true_eq, Bool.not_eq_true'] at hr
  have h2 : (copyFileMetadataRun t.From t.To
      (copyFileDataErr t.From t.To (st.logf (LogLine.copying t.From t.To))).1).2 = false := hr.2
  simp [startCopyThread, hb, runJob, hr.1, h2, copyFileData, copyFileMetadata]

theorem startCopyThread_eq (tasks : List copyTask) : ∀ st : State,
    workerReturns tasks st = true →
    (startCopyThread tasks st).1 = (tasks.takeWhile (fun t => !t.Bailout)).foldl runJob st ∧
    ((startCopyThread tasks st).2 = WorkerEnd.stopped ↔ ∃ t ∈ tasks, t.Bailout = true) ∧
    ((startCopyThread tasks st).2 = WorkerEnd.polling ↔ ∀ t ∈ tasks, t.Bailout = false) := by
  induction tasks with
  | nil => intro st _; simp [startCopyThread]
  | cons t rest ih =>
    intro st hret
    by_cases hb : t.Bailout = true
    · simp [startCopyThread, hb]
    · simp only [Bool.not_eq_true] at hb
      simp only [workerReturns, hb, Bool.false_or, Bool.and_eq_true] at hret
      have := ih (runJob st t) hret.2
      rw [startCopyThread_cons t rest st hb hret.1]
      simp [hb, List.takeWhile_cons, this]

theorem foldl_runJob_log (jobs : List copyTask) : ∀ st : State,
    (jobs.foldl runJob st).log = st.log ++ jobs.flatMap jobLines := by
  induction jobs with
  | nil => intro st; simp
  | cons t rest ih =>
    intro st
    simp [List.foldl_cons, ih, runJob_log, List.flatMap_cons]

/-! ## The channel -/

@[simp] theorem logf_copyTasks (st : State) (l : LogLine) :
    (st.logf l).copyTasks = st.copyTasks := rfl

@[simp] theorem logf_fs (st : State) (l : LogLine) : (st.logf l).fs = st.fs := rfl

@[simp] theorem logf_proc (st : State) (l : LogLine) : (st.logf l).proc = st.proc := rfl

@[simp] theorem send_fs (st : State) (t : copyTask) : (st.send t).fs = st.fs := rfl

@[simp] theorem send_copyTasks (st : State) (t : copyTask) :
    (st.send t).copyTasks = st.copyTasks ++ [t] := rfl

@[simp] theorem RemoveAll_copyTasks (st : State) (p : Path) :
    (RemoveAll st p).copyTasks = st.copyTasks := rfl

@[simp] theorem Remove_copyTasks (st : State) (p : Path) :
    (Remove st p).1.copyTasks = st.copyTasks := (Remove_same st p).2.1

@[simp] theorem Symlink_copyTasks (st : State) (t p : Path) :
    (Symlink st t p).1.copyTasks = st.copyTasks := (Symlink_same st t p).2.1

@[simp] theorem MkdirAll_copyTasks (st : State) (p : Path) (m : FileMode) :
    (MkdirAll st p m).1.copyTasks = st.copyTasks := (MkdirAll_same st p m).2.1

@[simp] theorem copyFileMetadata_copyTasks (src dst : Path) (st : State) :
    (copyFileMetadata src dst st).copyTasks = st.copyTasks :=
  (copyFileMetadata_same src dst st).2.1

@[simp] theorem removeMismatch_copyTasks (si : FileInfo) (di : Option FileInfo) (p : Path)
    (st : State) : (removeMismatch si di p st).copyTasks = st.copyTasks := by
  unfold removeMismatch
  split
  · split <;> rfl
  · rfl

@[simp] theorem copyFileMetadataRun_fst (src dst : Path) (st : State) :
    (copyFileMetadataRun src dst st).1 = copyFileMetadata src dst st := rfl

@[simp] theorem verifyPathRun_fst (src dst srcPath : Path) (srcInfo : FileInfo) (st : State) :
    (verifyPathRun src dst srcPath srcInfo st).1 = verifyPath src dst srcPath srcInfo st := rfl

theorem verifyPath_copyTasks (src dst srcPath : Path) (srcInfo : FileInfo) (st : State) :
    (verifyPath src dst srcPath srcInfo st).copyTasks = st.copyTasks ∨
    (verifyPath src dst srcPath srcInfo st).copyTasks =
      st.copyTasks ++ [⟨srcPath, mappedPath src dst srcPath, false⟩] := by
  unfold verifyPath verifyPathRun
  simp only []
  split_ifs
  · simp
  · split <;> simp
  · simp
  · simp
  · simp
  · split
    · simp
    · simp
    · split <;> simp

/-- A visit that does not end the process: `verifyPath` has not panicked. -/
theorem visitPath_some (src dst p : Path) (info : FileInfo) (st st2 : State)
    (h : visitPath src dst p (some info) st = some st2) :
    (verifyPathRun src dst p info (st.logf (LogLine.checking p))).2 = false ∧
      st2 = verifyPath src dst p info (st.logf (LogLine.checking p)) := by
  unfold visitPath at h
  simp only [] at h
  split at h
  · exact absurd h (by simp)
  · rename_i hp
    simp only [Option.some.injEq] at h
    exact ⟨by simpa using hp, h.symm⟩

/-- The jobs a traversal adds to the channel are copy jobs. -/
theorem walk_copyTasks (src dst : Path) (visits : List Path) : ∀ (st st1 : State),
    walk src dst visits st = some st1 →
    ∃ jobs : List copyTask, st1.copyTasks = st.copyTasks ++ jobs ∧
      ∀ j ∈ jobs, j.Bailout = false := by
  induction visits with
  | nil =>
    intro st st1 h
    simp only [walk, Option.some.injEq] at h
    exact ⟨[], by simp [h], by simp⟩
  | cons p rest ih =>
    intro st st1 h
    unfold walk at h
    split at h
    · exact absurd h (by simp)
    · rename_i st2 hv
      obtain ⟨jobs, hj, hb⟩ := ih st2 st1 h
      cases hL : Lstat st.fs p with
      | none => rw [hL] at hv; exact absurd hv (by simp [visitPath])
      | some info =>
        rw [hL] at hv
        have hv := (visitPath_some src dst p info st st2 hv).2
        rcases verifyPath_copyTasks src dst p info (st.logf (LogLine.checking p)) with h1 | h1
        · refine ⟨jobs, ?_, hb⟩
          rw [hj, hv, h1]; rfl
        · refine ⟨⟨p, mappedPath src dst p, false⟩ :: jobs, ?_, ?_⟩
          · rw [hj, hv, h1]; simp
          · intro j hjm
            rcases List.mem_cons.mp hjm with e | e
            · rw [e]
            · exact hb j e

/-! ## Lookup in the file system -/

theorem find_filter (f : Path → Bool) (fs : FS) (q : Path) :
    FS.find (fs.filter (fun e => f e.1)) q = if f q then FS.find fs q else none := by
  induction fs with
  | nil => simp [FS.find]
  | cons e rest ih =>
    obtain ⟨k, n⟩ := e
    by_cases hk : k = q
    · subst hk
      by_cases hf : f k = true
      · simp [List.filter_cons, hf, FS.find]
      · simp only [Bool.not_eq_true] at hf
        simp [List.filter_cons, hf, FS.find, ih]
    · by_cases hf : f k = true
      · simp [List.filter_cons, hf, FS.find, hk, ih]
      · simp only [Bool.not_eq_true] at hf
        simp [List.filter_cons, hf, FS.find, hk, ih]

theorem find_erase (fs : FS) (p q : Path) :
    (fs.erase p).find q = if q = p then none else fs.find q := by
  unfold FS.erase
  rw [find_filter (fun k => decide (k ≠ p)) fs q]
  by_cases h : q = p <;> simp [h]

theorem find_put (fs : FS) (p q : Path) (n : Node) :
    (fs.put p n).find q = if q = p then some n else fs.find q := by
  unfold FS.put
  by_cases h : q = p
  · simp [FS.find, h]
  · have h2 : ¬ p = q := fun e => h e.symm
    simp [FS.find, h, h2, find_erase]

theorem find_eraseTree (fs : FS) (root q : Path) :
    (fs.eraseTree root).find q = if isUnder root q then none else fs.find q := by
  unfold FS.eraseTree
  rw [find_filter (fun k => !isUnder root k) fs q]
  by_cases h : isUnder root q = true
  · simp [h]
  · simp only [Bool.not_eq_true] at h
    simp [h]

theorem isUnder_self (p : Path) : isUnder p p = true := by simp [isUnder]

theorem resolve_of_not_symlink (k : Nat) (fs : FS) (p : Path) (n : Node)
    (h : fs.find p = some n) (ht : n.typ ≠ FileType.symlink) :
    resolve k fs p = some p := by
  cases k <;> simp [resolve, h, ht]

theorem resolve_of_absent (k : Nat) (fs : FS) (p : Path) (h : fs.find p = none) :
    resolve k fs p = some p := by
  cases k <;> simp [resolve, h]

theorem statNode_of_not_symlink (fs : FS) (p : Path) (n : Node)
    (h : fs.find p = some n) (ht : n.typ ≠ FileType.symlink) :
    statNode fs p = some (p, n) := by
  unfold statNode maxSymlinks
  rw [resolve_of_not_symlink _ fs p n h ht]
  simp [h]

theorem statNode_of_absent (fs : FS) (p : Path) (h : fs.find p = none) :
    statNode fs p = none := by
  unfold statNode maxSymlinks
  rw [resolve_of_absent _ fs p h]
  simp [h]

theorem Stat_of_not_symlink (fs : FS) (p : Path) (n : Node)
    (h : fs.find p = some n) (ht : n.typ ≠ FileType.symlink) :
    Stat fs p = StatResult.ok n.info := by
  unfold Stat maxSymlinks
  rw [resolve_of_not_symlink _ fs p n h ht]
  simp [h]

theorem Stat_of_absent (fs : FS) (p : Path) (h : fs.find p = none) :
    Stat fs p = if belowNonDir fs p then StatResult.failed else StatResult.notExist := by
  unfold Stat maxSymlinks
  rw [resolve_of_absent _ fs p h]
  simp [h]

theorem Stat_of_absent_clear (fs : FS) (p : Path) (h : fs.find p = none)
    (hc : belowNonDir fs p = false) : Stat fs p = StatResult.notExist := by
  rw [Stat_of_absent fs p h, hc]
  rfl

theorem Stat_of_absent_below (fs : FS) (p : Path) (h : fs.find p = none)
    (hc : belowNonDir fs p = true) : Stat fs p = StatResult.failed := by
  rw [Stat_of_absent fs p h, hc]
  rfl

theorem Lstat_eq_none (fs : FS) (p : Path) : Lstat fs p = none ↔ fs.find p = none := by
  simp [Lstat]

theorem Node.mode_typ (n : Node) : n.mode.typ = n.typ := by
  unfold Node.mode
  split
  · rename_i h; exact h.symm
  · rfl

theorem Node.mode_perm (n : Node) (h : n.typ ≠ FileType.symlink) : n.mode.perm = n.perm := by
  simp [Node.mode, h]

/-! ## Paths below paths -/

theorem isUnder_iff (root q : Path) :
    isUnder root q = true ↔ q = root ∨ (root ++ ['/']) <+: q := by
  simp [isUnder, List.isPrefixOf_iff_prefix]

theorem isUnder_eq_false_iff (root q : Path) :
    isUnder root q = false ↔ q ≠ root ∧ ¬ (root ++ ['/']) <+: q := by
  rw [← Bool.not_eq_true, isUnder_iff]
  push_neg
  rfl

theorem isUnder_append_left (d r r2 : Path) : isUnder (d ++ r) (d ++ r2) = isUnder r r2 := by
  apply Bool.eq_iff_iff.mpr
  rw [isUnder_iff, isUnder_iff, List.append_assoc, List.prefix_append_right_inj]
  constructor
  · rintro (h | h)
    · exact Or.inl (List.append_cancel_left h)
    · exact Or.inr h
  · rintro (h | h)
    · exact Or.inl (by rw [h])
    · exact Or.inr h

theorem isUnder_length {q r : Path} (h : isUnder q r = true) : q.length ≤ r.length := by
  rcases (isUnder_iff q r).mp h with e | e
  · rw [e]
  · have := e.length_le
    simp at this
    omega

theorem isUnder_length_lt {q r : Path} (h : isUnder q r = true) (hne : r ≠ q) :
    q.length < r.length := by
  rcases (isUnder_iff q r).mp h with e | e
  · exact absurd e hne
  · have := e.length_le
    simp at this
    omega

theorem isUnder_trans {a b c : Path} (h1 : isUnder a b = true) (h2 : isUnder b c = true) :
    isUnder a c = true := by
  rcases (isUnder_iff a b).mp h1 with e1 | e1
  · rw [e1] at h2; exact h2
  · rcases (isUnder_iff b c).mp h2 with e2 | e2
    · rw [e2]; exact h1
    · apply (isUnder_iff a c).mpr
      right
      exact e1.trans ((List.prefix_append b ['/']).trans e2)

theorem parentOf_length_le (p : Path) : (parentOf p).length ≤ p.length - 1 := by
  unfold parentOf
  simp only [List.length_reverse, List.length_drop]
  have h1 := (@List.dropWhile_sublist _ (p.reverse.dropWhile (· == '/')) (· != '/')).length_le
  have h2 := (@List.dropWhile_sublist _ p.reverse (· == '/')).length_le
  simp only [List.length_reverse] at h2
  omega

theorem parentOf_isUnder (p : Path) (h : parentOf p ≠ []) : isUnder (parentOf p) p = true := by
  apply (isUnder_iff _ _).mpr
  right
  -- `p.reverse = slashes ++ name ++ '/' :: (parentOf p).reverse`
  have e1 := List.takeWhile_append_dropWhile (· == '/') p.reverse
  have e2 := List.takeWhile_append_dropWhile (· != '/') (p.reverse.dropWhile (· == '/'))
  generalize hX : (p.reverse.dropWhile (· == '/')).dropWhile (· != '/') = X at e2
  have hpar : parentOf p = (X.drop 1).reverse := by unfold parentOf; rw [hX]
  cases X with
  | nil => simp [hpar] at h
  | cons c rest =>
    have hc : c = '/' := by
      have := List.head_dropWhile_not (· != '/') (p.reverse.dropWhile (· == '/'))
        (by rw [hX]; simp)
      simp only [hX, List.head_cons] at this
      simpa using this
    subst hc
    have hp : p = rest.reverse ++ '/' ::
        (((p.reverse.dropWhile (· == '/')).takeWhile (· != '/')).reverse ++
          (p.reverse.takeWhile (· == '/')).reverse) := by
      have := congrArg List.reverse e1
      rw [← e2] at this
      simp only [List.reverse_append, List.reverse_cons, List.reverse_reverse,
        List.append_assoc, List.singleton_append] at this
      exact this.symm
    rw [hpar]
    simp only [List.drop_one, List.tail_cons]
    generalize (((p.reverse.dropWhile (· == '/')).takeWhile (· != '/')).reverse ++
          (p.reverse.takeWhile (· == '/')).reverse) = t at hp
    exact ⟨t, by rw [List.append_assoc]; exact hp.symm⟩

theorem parentOf_ne (p : Path) (h : parentOf p ≠ []) : parentOf p ≠ p := by
  intro e
  have := parentOf_length_le p
  rw [e] at this
  have hp : p ≠ [] := by rw [← e]; exact h
  have : 0 < p.length := List.length_pos.mpr hp
  omega

/-! ## Metadata and the equality checks -/

theorem erase_erase (fs : FS) (p : Path) : (fs.erase p).erase p = fs.erase p := by
  unfold FS.erase
  rw [List.filter_filter]
  simp

theorem put_put (fs : FS) (p : Path) (a b : Node) : (fs.put p a).put p b = fs.put p b := by
  unfold FS.put
  congr 1
  show FS.erase ((p, a) :: FS.erase fs p) p = FS.erase fs p
  have : FS.erase ((p, a) :: FS.erase fs p) p = FS.erase (FS.erase fs p) p := by
    simp [FS.erase, List.filter_cons]
  rw [this, erase_erase]

theorem getFileMetadata_of_not_symlink (fs : FS) (p : Path) (n : Node)
    (h : fs.find p = some n) (ht : n.typ ≠ FileType.symlink) :
    getFileMetadata fs p = some (n.metadata, false) := by
  simp [getFileMetadata, Stat_of_not_symlink fs p n h ht, Node.info, Node.metadata]

theorem updateNode_of_not_symlink (st : State) (p : Path) (n : Node) (f : Node → Node)
    (h : st.fs.find p = some n) (ht : n.typ ≠ FileType.symlink) :
    updateNode st p f = ({ st with fs := st.fs.put p (f n) }, false) := by
  simp [updateNode, statNode_of_not_symlink st.fs p n h ht]

theorem updateNode_of_absent (st : State) (p : Path) (f : Node → Node)
    (h : st.fs.find p = none) : updateNode st p f = (st, true) := by
  simp [updateNode, statNode_of_absent st.fs p h]

theorem setFileMetadata_of_not_symlink (st : State) (p : Path) (m : Node) (fi : fileInfo)
    (h : st.fs.find p = some m) (ht : m.typ ≠ FileType.symlink) :
    setFileMetadata st p fi = ({ st with fs := st.fs.put p (m.withMetadata fi) }, false) := by
  unfold setFileMetadata Chtimes Chown Chmod
  rw [updateNode_of_not_symlink st p m _ h ht]
  simp only [Bool.false_eq_true, ↓reduceIte]
  rw [updateNode_of_not_symlink _ p
    { m with atime := if fi.Atime = zeroTime then m.atime else fi.Atime,
             mtime := if fi.Mtime = zeroTime then m.mtime else fi.Mtime } _
    (by simp [find_put]) (by simpa using ht)]
  simp only [Bool.false_eq_true, ↓reduceIte]
  rw [updateNode_of_not_symlink _ p
    { m with atime := if fi.Atime = zeroTime then m.atime else fi.Atime,
             mtime := if fi.Mtime = zeroTime then m.mtime else fi.Mtime,
             uid := fi.UID, gid := fi.GID } _
    (by simp [find_put]) (by simpa using ht)]
  simp [put_put, Node.withMetadata]

theorem setFileMetadata_of_absent (st : State) (p : Path) (fi : fileInfo)
    (h : st.fs.find p = none) : setFileMetadata st p fi = (st, true) := by
  unfold setFileMetadata Chtimes
  rw [updateNode_of_absent st p _ h]
  simp

theorem copyFileMetadataRun_of_not_symlink (st : State) (src dst : Path) (n m : Node)
    (hs : st.fs.find src = some n) (tn : n.typ ≠ FileType.symlink)
    (h : st.fs.find dst = some m) (ht : m.typ ≠ FileType.symlink) :
    copyFileMetadataRun src dst st =
      ({ st.logf (LogLine.copyingMetadata src dst) with
        fs := st.fs.put dst (m.withMetadata n.metadata) }, false) := by
  unfold copyFileMetadataRun
  simp only [logf_fs]
  rw [getFileMetadata_of_not_symlink st.fs src n hs tn]
  simp only []
  rw [setFileMetadata_of_not_symlink _ dst m _ (by simpa using h) ht]
  rfl

theorem copyFileMetadata_of_not_symlink (st : State) (src dst : Path) (n m : Node)
    (hs : st.fs.find src = some n) (tn : n.typ ≠ FileType.symlink)
    (h : st.fs.find dst = some m) (ht : m.typ ≠ FileType.symlink) :
    copyFileMetadata src dst st =
      { st.logf (LogLine.copyingMetadata src dst) with
        fs := st.fs.put dst (m.withMetadata n.metadata) } := by
  unfold copyFileMetadata
  rw [copyFileMetadataRun_of_not_symlink st src dst n m hs tn h ht]

theorem equalSize_of_not_symlink (fs : FS) (p q : Path) (n m : Node)
    (hp : fs.find p = some n) (hq : fs.find q = some m)
    (tn : n.typ ≠ FileType.symlink) (tm : m.typ ≠ FileType.symlink) :
    equalSize fs p q = some (decide (n.size = m.size)) := by
  unfold equalSize
  by_cases e : p = q
  · subst e
    rw [hp] at hq
    cases hq
    simp
  · rw [if_neg e, Stat_of_not_symlink fs p n hp tn, Stat_of_not_symlink fs q m hq tm]
    by_cases hsz : n.size = m.size <;> simp [hsz, Node.info]

theorem equalMetadata_of_not_symlink (fs : FS) (p q : Path) (n m : Node)
    (hp : fs.find p = some n) (hq : fs.find q = some m)
    (tn : n.typ ≠ FileType.symlink) (tm : m.typ ≠ FileType.symlink) :
    equalMetadata fs p q = some (decide (n.metadata = m.metadata)) := by
  unfold equalMetadata
  by_cases e : p = q
  · subst e
    rw [hp] at hq
    cases hq
    simp
  · rw [if_neg e]
    simp only [Stat_of_not_symlink fs p n hp tn, Stat_of_not_symlink fs q m hq tm,
      getFileMetadata_of_not_symlink fs p n hp tn, getFileMetadata_of_not_symlink fs q m hq tm]
    by_cases hm : n.metadata = m.metadata
    · simp [hm]
    · simp only [hm, decide_False]
      have : n.metadata.Mtime ≠ m.metadata.Mtime ∨ n.metadata.Atime ≠ m.metadata.Atime ∨
          n.metadata.UID ≠ m.metadata.UID ∨ n.metadata.GID ≠ m.metadata.GID ∨
          n.metadata.Mode ≠ m.metadata.Mode := by
        by_contra hc
        push_neg at hc
        apply hm
        cases hn : n.metadata
        cases hm2 : m.metadata
        simp only [hn, hm2] at hc
        simp [hc]
      simp [this]

/-- With the destination absent, `equalSize` answers `false`, or panics when
the destination lies below an entry that is not a directory. -/
theorem equalSize_of_absent_right (fs : FS) (p q : Path) (n : Node)
    (hp : fs.find p = some n) (tn : n.typ ≠ FileType.symlink) (hq : fs.find q = none) :
    equalSize fs p q = if belowNonDir fs q then none else some false := by
  have e : p ≠ q := by
    intro e; rw [e, hq] at hp; cases hp
  unfold equalSize
  rw [if_neg e, Stat_of_not_symlink fs p n hp tn, Stat_of_absent fs q hq]
  by_cases hb : belowNonDir fs q = true
  · simp [hb]
  · simp [hb]

theorem equalMetadata_of_absent_right (fs : FS) (p q : Path) (n : Node)
    (hp : fs.find p = some n) (tn : n.typ ≠ FileType.symlink) (hq : fs.find q = none) :
    equalMetadata fs p q = if belowNonDir fs q then none else some false := by
  have e : p ≠ q := by
    intro e; rw [e, hq] at hp; cases hp
  unfold equalMetadata
  rw [if_neg e, Stat_of_not_symlink fs p n hp tn, Stat_of_absent fs q hq]
  by_cases hb : belowNonDir fs q = true
  · simp [hb, getFileMetadata, Stat_of_absent fs q hq]
  · simp [hb]

/-! ## The regular-file branch of verifyPath -/

@[simp] theorem send_log (st : State) (t : copyTask) : (st.send t).log = st.log := rfl

@[simp] theorem logf_log (st : State) (l : LogLine) : (st.logf l).log = st.log ++ [l] := rfl

theorem info_mode (n : Node) : n.info.mode = n.mode := rfl

theorem info_size (n : Node) : n.info.size = n.size := rfl

theorem info_IsDir (n : Node) : n.info.IsDir = decide (n.typ = FileType.dir) := by
  simp [FileInfo.IsDir, FileMode.IsDir, Node.info, Node.mode_typ]

theorem mode_eq_typ {n m : Node} (h : n.mode = m.mode) : n.typ = m.typ := by
  rw [← Node.mode_typ n, ← Node.mode_typ m, h]

/-- The branch of `verifyPath` for a source that is neither a directory nor a
symbolic link. -/
theorem verifyPathRun_regular (s d p : Path) (n : Node) (st : State)
    (hreg : n.typ = FileType.regular) :
    verifyPathRun s d p n.info st =
      (let st1 := removeMismatch n.info (Lstat st.fs (mappedPath s d p)) (mappedPath s d p) st
       match equalSize st1.fs p (mappedPath s d p) with
       | none => (st1, true)
       | some false => (st1.send ⟨p, mappedPath s d p, false⟩, false)
       | some true =>
         match equalMetadata st1.fs p (mappedPath s d p) with
         | none => (st1, true)
         | some false => copyFileMetadataRun p (mappedPath s d p) st1
         | some true => (st1, false)) := by
  have h1 : n.info.IsDir = false := by rw [info_IsDir, hreg]; decide
  have h2 : ¬ n.info.mode.typ = FileType.symlink := by
    rw [info_mode, Node.mode_typ, hreg]; decide
  unfold verifyPathRun
  simp only [h1, h2, Bool.false_eq_true, ↓reduceIte]

theorem nodeAbove_eraseTree (root : Path) (fs : FS) : ∀ (k : Nat) (q : Path),
    q.length ≤ root.length → nodeAbove k (fs.eraseTree root) q = nodeAbove k fs q := by
  intro k
  induction k with
  | zero => intro q _; rfl
  | succ k ih =>
    intro q hq
    unfold nodeAbove
    by_cases hp : parentOf q = []
    · simp [hp]
    · have hlen := parentOf_length_le q
      have hpos : 0 < (parentOf q).length := List.length_pos.mpr hp
      have hu : isUnder root (parentOf q) = false := by
        cases hu : isUnder root (parentOf q) with
        | false => rfl
        | true =>
          have := isUnder_length hu
          omega
      rw [if_neg hp, if_neg hp, find_eraseTree, hu]
      simp only [Bool.false_eq_true, ↓reduceIte]
      rw [ih (parentOf q) (by omega)]

/-- Removing a tree changes nothing above its root. -/
theorem belowNonDir_eraseTree (fs : FS) (root : Path) :
    belowNonDir (fs.eraseTree root) root = belowNonDir fs root := by
  unfold belowNonDir
  rw [nodeAbove_eraseTree root fs root.length root (Nat.le_refl _)]

theorem removeMismatch_of_absent (i : FileInfo) (p : Path) (st : State) :
    removeMismatch i none p st = st := rfl

theorem removeMismatch_of_same (i j : FileInfo) (p : Path) (st : State) (h : i.mode = j.mode) :
    removeMismatch i (some j) p st = st := by
  simp [removeMismatch, h]

theorem removeMismatch_of_different (i j : FileInfo) (p : Path) (st : State)
    (h : i.mode ≠ j.mode) :
    removeMismatch i (some j) p st = RemoveAll (st.logf (LogLine.removingDestination p)) p := by
  simp [removeMismatch, h]

theorem RemoveAll_fs (st : State) (p : Path) : (RemoveAll st p).fs = st.fs.eraseTree p := rfl

/-- C4, as amended. Size change triggers copy: for a regular source file at
`p` whose mapped destination is absent or exists with another length, where
the destination does not lie below an entry that is not a directory and the
source does not lie at or below the destination, `verifyPath` returns, sends
exactly one job, `{From: p, To: mapped(p), Bailout: false}`, and copies no
metadata: the file system is unchanged or has lost the destination, and the
only line that may be logged is the removal of the destination. -/
theorem size_change_enqueues_one_job (s d p : Path) (n : Node) (st : State)
    (hsrc : st.fs.find p = some n) (hreg : n.typ = FileType.regular)
    (hdst : Lstat st.fs (mappedPath s d p) = none ∨
      ∃ di : FileInfo, Lstat st.fs (mappedPath s d p) = some di ∧ di.size ≠ n.info.size)
    (hclear : belowNonDir st.fs (mappedPath s d p) = false)
    (hout : isUnder (mappedPath s d p) p = false) :
    (verifyPathRun s d p n.info st).2 = false ∧
    (verifyPath s d p n.info st).copyTasks =
      st.copyTasks ++ [⟨p, mappedPath s d p, false⟩] ∧
    ((verifyPath s d p n.info st).fs = st.fs ∨
      (verifyPath s d p n.info st).fs = st.fs.eraseTree (mappedPath s d p)) ∧
    ((verifyPath s d p n.info st).log = st.log ∨
      (verifyPath s d p n.info st).log =
        st.log ++ [LogLine.removingDestination (mappedPath s d p)]) := by
  have tn : n.typ ≠ FileType.symlink := by rw [hreg]; decide
  unfold verifyPath
  rw [verifyPathRun_regular s d p n st hreg]
  generalize mappedPath s d p = dst at *
  rcases hdst with h0 | ⟨di, h1, h2⟩
  · -- the destination does not exist
    have hf : st.fs.find dst = none := (Lstat_eq_none _ _).mp h0
    simp only [h0, removeMismatch_of_absent]
    rw [equalSize_of_absent_right st.fs _ _ n hsrc tn hf, hclear]
    simp
  · obtain ⟨m, hm, hmi⟩ : ∃ m, st.fs.find dst = some m ∧ m.info = di := by
      simpa [Lstat] using h1
    subst hmi
    simp only [h1]
    by_cases hmode : n.info.mode = m.info.mode
    · -- same mode: the sizes are compared
      have tm : m.typ ≠ FileType.symlink := by
        rw [← mode_eq_typ hmode]; exact tn
      rw [removeMismatch_of_same _ _ _ _ hmode]
      rw [equalSize_of_not_symlink st.fs _ _ n m hsrc hm tn tm]
      have : ¬ n.size = m.size := fun e => h2 (by simp [info_size, e])
      simp [this]
    · -- different mode: the destination is removed first
      rw [removeMismatch_of_different _ _ _ _ hmode]
      have hs : (RemoveAll (st.logf (LogLine.removingDestination dst)) dst).fs.find p =
          some n := by
        simp [RemoveAll_fs, find_eraseTree, hout, hsrc]
      have hd : (RemoveAll (st.logf (LogLine.removingDestination dst)) dst).fs.find dst =
          none := by
        simp [RemoveAll_fs, find_eraseTree, isUnder_self]
      have hc : belowNonDir (RemoveAll (st.logf (LogLine.removingDestination dst)) dst).fs dst =
          false := by
        rw [RemoveAll_fs, logf_fs, belowNonDir_eraseTree, hclear]
      rw [equalSize_of_absent_right _ _ _ n hs tn hd, hc]
      simp [RemoveAll_fs, RemoveAll, State.logf, State.send]

/-! ## The symbolic-link branch of verifyPath -/

theorem symlink_mode (n : Node) (h : n.typ = FileType.symlink) :
    n.mode = ⟨FileType.symlink, 0o777⟩ := by
  simp [Node.mode, h]

theorem Readlink_of_symlink (fs : FS) (p : Path) (n : Node) (h : fs.find p = some n)
    (ht : n.typ = FileType.symlink) : Readlink fs p = n.target := by
  simp [Readlink, h, ht]

/-- The branch of `verifyPath` for a source that is a symbolic link; nothing
in it panics. -/
theorem verifyPathRun_symlink (s d p : Path) (n : Node) (st : State)
    (hlink : n.typ = FileType.symlink) :
    verifyPathRun s d p n.info st =
      ((let dstPath := mappedPath s d p
        let st1 := removeMismatch n.info (Lstat st.fs dstPath) dstPath st
        let target := stringsReplace1 (Readlink st1.fs p) s d
        if (Lstat st.fs dstPath).isNone then
          (Symlink (st1.logf (LogLine.creatingSymlink dstPath)) target dstPath).1
        else if Readlink st1.fs dstPath ≠ target then
          (Symlink (Remove (st1.logf (LogLine.replacingSymlink dstPath)) dstPath).1
            target dstPath).1
        else st1), false) := by
  have h1 : n.info.IsDir = false := by rw [info_IsDir, hlink]; decide
  have h2 : n.info.mode.typ = FileType.symlink := by rw [info_mode, Node.mode_typ, hlink]
  unfold verifyPathRun
  simp only [h1, h2, Bool.false_eq_true, ↓reduceIte]
  split_ifs <;> rfl

theorem verifyPath_symlink (s d p : Path) (n : Node) (st : State)
    (hlink : n.typ = FileType.symlink) :
    verifyPath s d p n.info st =
      (let dstPath := mappedPath s d p
       let st1 := removeMismatch n.info (Lstat st.fs dstPath) dstPath st
       let target := stringsReplace1 (Readlink st1.fs p) s d
       if (Lstat st.fs dstPath).isNone then
         (Symlink (st1.logf (LogLine.creatingSymlink dstPath)) target dstPath).1
       else if Readlink st1.fs dstPath ≠ target then
         (Symlink (Remove (st1.logf (LogLine.replacingSymlink dstPath)) dstPath).1
           target dstPath).1
       else st1) := by
  unfold verifyPath
  rw [verifyPathRun_symlink s d p n st hlink]

/-- C6. Symlink rewrite: for roots `d ≠ s` and a source symbolic link at `p`
with target `s ++ r`, the rewritten target `d ++ r` differs from `s ++ r`;
when the mapped destination is absent and can be created, or is a symbolic
link with another target and can be created again once removed, `verifyPath`
leaves a symbolic link with target `d ++ r` there; and when it is a symbolic
link with target `d ++ r` already, `verifyPath` changes nothing. -/
theorem symlink_target_is_rewritten (s d r p : Path) (n : Node) (st : State)
    (hds : d ≠ s) (hsrc : st.fs.find p = some n)
    (hlink : n.typ = FileType.symlink) (htgt : n.target = s ++ r) :
    d ++ r ≠ s ++ r ∧
    (st.fs.find (mappedPath s d p) = none → canCreateAt st.fs (mappedPath s d p) = true →
      ∃ m, (verifyPath s d p n.info st).fs.find (mappedPath s d p) = some m ∧
        m.typ = FileType.symlink ∧ m.target = d ++ r) ∧
    (∀ m0, st.fs.find (mappedPath s d p) = some m0 → m0.typ = FileType.symlink →
      m0.target ≠ d ++ r →
      canCreateAt (st.fs.erase (mappedPath s d p)) (mappedPath s d p) = true →
      ∃ m, (verifyPath s d p n.info st).fs.find (mappedPath s d p) = some m ∧
        m.typ = FileType.symlink ∧ m.target = d ++ r) ∧
    (∀ m0, st.fs.find (mappedPath s d p) = some m0 → m0.typ = FileType.symlink →
      m0.target = d ++ r → verifyPath s d p n.info st = st) := by
  rw [verifyPath_symlink s d p n st hlink]
  generalize mappedPath s d p = dst at *
  refine ⟨fun h => hds (List.append_cancel_right h), ?_, ?_, ?_⟩
  · intro h0 hc
    have hL : Lstat st.fs dst = none := (Lstat_eq_none _ _).mpr h0
    simp only [hL, removeMismatch_of_absent, Option.isNone_none, ↓reduceIte]
    rw [Readlink_of_symlink st.fs _ n hsrc hlink, htgt, stringsReplace1_append]
    refine ⟨st.proc.newNode FileType.symlink 0o777 (d ++ r), ?_, rfl, rfl⟩
    simp [Symlink, h0, hc, find_put]
  · intro m0 h0 hm0 hne hc
    have hL : Lstat st.fs dst = some m0.info := by simp [Lstat, h0]
    have hmode : n.info.mode = m0.info.mode := by
      rw [info_mode, info_mode, symlink_mode n hlink, symlink_mode m0 hm0]
    simp only [hL, removeMismatch_of_same _ _ _ _ hmode, Option.isNone_some]
    rw [Readlink_of_symlink st.fs _ n hsrc hlink, htgt, stringsReplace1_append,
      Readlink_of_symlink st.fs _ m0 h0 hm0]
    refine ⟨st.proc.newNode FileType.symlink 0o777 (d ++ r), ?_, rfl, rfl⟩
    simp [hne, Remove, h0, hm0, Symlink, find_erase, hc, find_put]
  · intro m0 h0 hm0 heq
    have hL : Lstat st.fs dst = some m0.info := by simp [Lstat, h0]
    have hmode : n.info.mode = m0.info.mode := by
      rw [info_mode, info_mode, symlink_mode n hlink, symlink_mode m0 hm0]
    simp only [hL, removeMismatch_of_same _ _ _ _ hmode, Option.isNone_some]
    rw [Readlink_of_symlink st.fs _ n hsrc hlink, htgt, stringsReplace1_append,
      Readlink_of_symlink st.fs _ m0 h0 hm0]
    simp [heq]

/-! ## Runs on a mirrored destination -/

theorem sameShape_refl (fs : FS) : SameShape fs fs := fun _ => rfl

theorem sameShape_trans {a b c : FS} (h1 : SameShape a b) (h2 : SameShape b c) :
    SameShape a c := fun q => (h2 q).trans (h1 q)

theorem shape_mode {a b : Node} (h : a.shape = b.shape) : a.mode = b.mode := by
  simp only [Node.shape, Prod.mk.injEq] at h
  simp [Node.mode, h.1, h.2.1]

theorem sameShape_find {fs fs1 : FS} (h : SameShape fs fs1) {q : Path} {n : Node}
    (hq : fs.find q = some n) : ∃ n1, fs1.find q = some n1 ∧ n1.shape = n.shape := by
  have := h q
  rw [hq] at this
  cases h1 : fs1.find q with
  | none => rw [h1] at this; cases this
  | some n1 =>
    rw [h1] at this
    exact ⟨n1, rfl, by simpa using this⟩

theorem mirrored_of_sameShape {s d : Path} {fs fs1 : FS} {p : Path} (h : SameShape fs fs1)
    (hm : Mirrored s d fs p) : Mirrored s d fs1 p := by
  obtain ⟨n, m, hn, hmm, hmode, hc⟩ := hm
  obtain ⟨n1, hn1, sn⟩ := sameShape_find h hn
  obtain ⟨m1, hm1, sm⟩ := sameShape_find h hmm
  refine ⟨n1, m1, hn1, hm1, ?_, ?_⟩
  · rw [shape_mode sn, shape_mode sm, hmode]
  · simp only [Node.shape, Prod.mk.injEq] at sn sm
    rw [sn.1, sn.2.2.1, sn.2.2.2, sm.2.2.1, sm.2.2.2]
    exact hc

theorem sameShape_put (fs : FS) (p : Path) (m m1 : Node) (h : fs.find p = some m)
    (hs : m1.shape = m.shape) : SameShape fs (fs.put p m1) := by
  intro q
  rw [find_put]
  split
  · rename_i e; rw [e, h]; simp [hs]
  · rfl

theorem withMetadata_shape (m : Node) (fi : fileInfo) (h : fi.Mode.perm = m.perm) :
    (m.withMetadata fi).shape = m.shape := by
  simp [Node.withMetadata, Node.shape, h]

/-- The branch of `verifyPath` for a source that is a directory. -/
theorem verifyPathRun_dir (s d p : Path) (n : Node) (st : State) (hdir : n.typ = FileType.dir) :
    verifyPathRun s d p n.info st =
      (let dstPath := mappedPath s d p
       let st1 := removeMismatch n.info (Lstat st.fs dstPath) dstPath st
       if (Lstat st.fs dstPath).isNone then
         copyFileMetadataRun p dstPath
           (MkdirAll (st1.logf (LogLine.creatingDirectory dstPath)) dstPath n.info.mode).1
       else
         match equalMetadata st1.fs p dstPath with
         | none => (st1, true)
         | some false => copyFileMetadataRun p dstPath st1
         | some true => (st1, false)) := by
  have h1 : n.info.IsDir = true := by rw [info_IsDir, hdir]; decide
  unfold verifyPathRun
  simp only [h1, ↓reduceIte]

/-- When source and destination have the same mode and neither is a symbolic
link, a metadata copy changes times and owner only. -/
theorem copyFileMetadata_sameShape (st : State) (p q : Path) (n m : Node)
    (hp : st.fs.find p = some n) (hq : st.fs.find q = some m) (hmode : n.mode = m.mode)
    (tn : n.typ ≠ FileType.symlink) :
    (copyFileMetadata p q st).copyTasks = st.copyTasks ∧
      SameShape st.fs (copyFileMetadata p q st).fs := by
  have tm : m.typ ≠ FileType.symlink := by rw [← mode_eq_typ hmode]; exact tn
  refine ⟨copyFileMetadata_copyTasks p q st, ?_⟩
  rw [copyFileMetadata_of_not_symlink st p q n m hp tn hq tm]
  apply sameShape_put st.fs q m _ hq
  apply withMetadata_shape
  show n.mode.perm = m.perm
  rw [hmode, Node.mode_perm m tm]

/-- What `verifyPath` does once the sizes are found equal, on two entries of
the same mode: at most a metadata copy. -/
theorem metadata_step (st : State) (p q : Path) (n m : Node)
    (hp : st.fs.find p = some n) (hq : st.fs.find q = some m) (hmode : n.mode = m.mode)
    (tn : n.typ ≠ FileType.symlink) :
    (match equalMetadata st.fs p q with
      | none => (st, true)
      | some false => copyFileMetadataRun p q st
      | some true => (st, false)) =
    (if n.metadata = m.metadata then (st, false)
      else ({ st.logf (LogLine.copyingMetadata p q) with
        fs := st.fs.put q (m.withMetadata n.metadata) }, false)) := by
  have tm : m.typ ≠ FileType.symlink := by rw [← mode_eq_typ hmode]; exact tn
  rw [equalMetadata_of_not_symlink st.fs p q n m hp hq tn tm]
  by_cases hmeta : n.metadata = m.metadata
  · simp [hmeta]
  · simp only [hmeta, decide_False, ↓reduceIte]
    exact copyFileMetadataRun_of_not_symlink st p q n m hp tn hq tm

theorem metadata_step_sameShape (st : State) (q : Path) (n m : Node)
    (hq : st.fs.find q = some m) (hmode : n.mode = m.mode) (tn : n.typ ≠ FileType.symlink) :
    SameShape st.fs (st.fs.put q (m.withMetadata n.metadata)) := by
  have tm : m.typ ≠ FileType.symlink := by rw [← mode_eq_typ hmode]; exact tn
  apply sameShape_put st.fs q m _ hq
  apply withMetadata_shape
  show n.mode.perm = m.perm
  rw [hmode, Node.mode_perm m tm]

/-- On a mirrored entry `verifyPath` returns, enqueues nothing and changes at
most times and owner of the destination. -/
theorem verifyPath_of_mirrored (s d p : Path) (n : Node) (st : State)
    (hn : st.fs.find p = some n) (hm : Mirrored s d st.fs p) :
    (verifyPathRun s d p n.info st).2 = false ∧
    (verifyPath s d p n.info st).copyTasks = st.copyTasks ∧
      SameShape st.fs (verifyPath s d p n.info st).fs := by
  obtain ⟨n0, m, hn0, hmm, hmode, hc⟩ := hm
  rw [hn] at hn0
  cases hn0
  have hL : Lstat st.fs (mappedPath s d p) = some m.info := by simp [Lstat, hmm]
  have hmode2 : n.info.mode = m.info.mode := hmode
  unfold verifyPath
  rcases hc with ⟨hreg, hlen⟩ | hdir | ⟨hlink, htgt⟩
  · have tn : n.typ ≠ FileType.symlink := by rw [hreg]; decide
    have tm : m.typ ≠ FileType.symlink := by rw [← mode_eq_typ hmode]; exact tn
    rw [verifyPathRun_regular s d p n st hreg]
    simp only [hL, removeMismatch_of_same _ _ _ _ hmode2]
    rw [equalSize_of_not_symlink st.fs _ _ n m hn hmm tn tm]
    have hsz : n.size = m.size := by simp [Node.size, tn, tm, hlen]
    simp only [hsz, decide_True]
    rw [metadata_step st p _ n m hn hmm hmode tn]
    split
    · exact ⟨rfl, rfl, sameShape_refl _⟩
    · exact ⟨rfl, rfl, metadata_step_sameShape st _ n m hmm hmode tn⟩
  · have tn : n.typ ≠ FileType.symlink := by rw [hdir]; decide
    rw [verifyPathRun_dir s d p n st hdir]
    simp only [hL, removeMismatch_of_same _ _ _ _ hmode2, Option.isNone_some,
      Bool.false_eq_true, ↓reduceIte]
    rw [metadata_step st p _ n m hn hmm hmode tn]
    split
    · exact ⟨rfl, rfl, sameShape_refl _⟩
    · exact ⟨rfl, rfl, metadata_step_sameShape st _ n m hmm hmode tn⟩
  · have tm : m.typ = FileType.symlink := by rw [← mode_eq_typ hmode]; exact hlink
    rw [verifyPathRun_symlink s d p n st hlink]
    simp only [hL, removeMismatch_of_same _ _ _ _ hmode2, Option.isNone_some,
      Bool.false_eq_true, ↓reduceIte]
    rw [Readlink_of_symlink st.fs _ n hn hlink, Readlink_of_symlink st.fs _ m hmm tm, htgt]
    simp [sameShape_refl]

theorem walk_of_mirrored (s d : Path) (visits : List Path) : ∀ st : State,
    (∀ p ∈ visits, Mirrored s d st.fs p) →
    ∃ st1, walk s d visits st = some st1 ∧ st1.copyTasks = st.copyTasks ∧
      SameShape st.fs st1.fs := by
  induction visits with
  | nil => intro st _; exact ⟨st, rfl, rfl, sameShape_refl _⟩
  | cons p rest ih =>
    intro st h
    obtain ⟨n, m, hn, hrest⟩ := h p (List.mem_cons_self _ _)
    have hv := verifyPath_of_mirrored s d p n (st.logf (LogLine.checking p)) hn
      (h p (List.mem_cons_self _ _))
    have hrest2 : ∀ q ∈ rest, Mirrored s d
        (verifyPath s d p n.info (st.logf (LogLine.checking p))).fs q :=
      fun q hq => mirrored_of_sameShape hv.2.2 (h q (List.mem_cons_of_mem _ hq))
    obtain ⟨st1, hw, hq, hs⟩ := ih _ hrest2
    refine ⟨st1, ?_, ?_, ?_⟩
    · simp [walk, visitPath, Lstat, hn, hv.1, hw]
    · rw [hq, hv.2.1]; rfl
    · exact sameShape_trans hv.2.2 hs

/-! ## Copy jobs on regular files -/

theorem Open_of_regular (fs : FS) (p : Path) (n : Node) (h : fs.find p = some n)
    (ht : n.typ = FileType.regular) : Open fs p = Call.ok p := by
  have tn : n.typ ≠ FileType.symlink := by rw [ht]; decide
  simp [Open, statNode_of_not_symlink fs p n h tn, ht]

theorem Create_of_absent (st : State) (q : Path) (h : st.fs.find q = none)
    (hc : canCreateAt st.fs q = true) :
    Create st q =
      some ({ st with
        fs := st.fs.put q (st.proc.newNode FileType.regular (st.proc.masked 0o666) []) }, q) := by
  unfold Create maxSymlinks
  rw [resolve_of_absent _ st.fs q h]
  simp [h, hc]

theorem Create_of_regular (st : State) (q : Path) (m : Node) (h : st.fs.find q = some m)
    (hm : m.typ = FileType.regular) :
    Create st q =
      some ({ st with fs := st.fs.put q { m with data := [], mtime := st.proc.now } }, q) := by
  have tm : m.typ ≠ FileType.symlink := by rw [hm]; decide
  unfold Create maxSymlinks
  rw [resolve_of_not_symlink _ st.fs q m h tm]
  simp [h, hm]

/-- On a regular source file whose destination is a regular file with the
same length and metadata `verifyPath` does nothing. -/
theorem verifyPath_noop (s d p : Path) (n m : Node) (st : State)
    (hp : st.fs.find p = some n) (hreg : n.typ = FileType.regular)
    (hq : st.fs.find (mappedPath s d p) = some m) (hm : m.typ = FileType.regular)
    (hlen : m.data.length = n.data.length) (hmeta : m.metadata = n.metadata) :
    verifyPath s d p n.info st = st := by
  have tn : n.typ ≠ FileType.symlink := by rw [hreg]; decide
  have tm : m.typ ≠ FileType.symlink := by rw [hm]; decide
  have hmode : n.info.mode = m.info.mode := by
    have := congrArg fileInfo.Mode hmeta
    exact this.symm
  have hL : Lstat st.fs (mappedPath s d p) = some m.info := by simp [Lstat, hq]
  unfold verifyPath
  rw [verifyPathRun_regular s d p n st hreg]
  simp only [hL, removeMismatch_of_same _ _ _ _ hmode]
  rw [equalSize_of_not_symlink st.fs _ _ n m hp hq tn tm,
    equalMetadata_of_not_symlink st.fs _ _ n m hp hq tn tm]
  have hsz : n.size = m.size := by simp [Node.size, tn, tm, hlen]
  simp [hsz, hmeta]

/-! ## The worker protocol, the path mapping and the content check -/

theorem takeWhile_append_stop {α : Type} (f : α → Bool) (xs ys : List α)
    (hx : ∀ x ∈ xs, f x = true) (hy : ∀ y, ys.head? = some y → f y = false) :
    (xs ++ ys).takeWhile f = xs := by
  induction xs with
  | nil =>
    cases ys with
    | nil => rfl
    | cons y rest => simp [List.takeWhile_cons, hy y rfl]
  | cons x rest ih =>
    have h1 : f x = true := hx x (List.mem_cons_self _ _)
    simp [List.takeWhile_cons, h1, ih (fun z hz => hx z (List.mem_cons_of_mem _ hz))]

theorem mainQueue_copyTasks (src dst : Path) (visits : List Path) (st0 st1 : State)
    (h : mainQueue src dst visits st0 = some st1) :
    ∃ jobs : List copyTask, st1.copyTasks = jobs ++ List.replicate copyThreads bailout ∧
      (∀ j ∈ jobs, j.Bailout = false) ∧
      st1.copyTasks.takeWhile (fun t => !t.Bailout) = jobs := by
  unfold mainQueue at h
  split at h
  · exact absurd h (by simp)
  · rename_i st2 hw
    obtain ⟨jobs, hj, hb⟩ := walk_copyTasks src dst visits _ st2 hw
    simp only [List.nil_append] at hj
    simp only [Option.some.injEq] at h
    have hq : st1.copyTasks = jobs ++ List.replicate copyThreads bailout := by
      rw [← h, hj]
    refine ⟨jobs, hq, hb, ?_⟩
    rw [hq]
    apply takeWhile_append_stop
    · intro x hx; simp [hb x hx]
    · intro y hy
      simp [copyThreads, bailout] at hy
      simp [← hy]

theorem workerReturns_of_not_fails (tasks : List copyTask) : ∀ st : State,
    workerFails tasks st = false → workerReturns tasks st = true := by
  induction tasks with
  | nil => intro st _; rfl
  | cons t rest ih =>
    intro st h
    by_cases hb : t.Bailout = true
    · simp [workerReturns, hb]
    · simp only [Bool.not_eq_true] at hb
      simp only [workerFails, hb, Bool.false_eq_true, ↓reduceIte, Bool.or_eq_false_iff,
        decide_eq_false_iff_not, ne_eq, not_not] at h
      simp only [workerReturns, hb, Bool.false_or, Bool.and_eq_true]
      refine ⟨?_, ih _ h.2⟩
      simp only [jobReturns, Bool.and_eq_true, decide_eq_true_eq, Bool.not_eq_true']
      refine ⟨by rw [h.1.1]; decide, ?_⟩
      have h2 := h.1.2
      unfold copyFileMetadataFails at h2
      unfold copyFileMetadataRun
      simp only [] at h2 ⊢
      split <;> simp_all

/-- C9, as amended. Worker job protocol: on every finite sequence of jobs it
receives, in which the copy of every job before the first termination job
returns (no content copy blocks, no metadata copy panics), the worker runs,
for the jobs before the first termination job and in order, the content copy
followed by the metadata copy, stops exactly when there is a termination job,
keeps polling when there is none, and runs nothing for the jobs after it; and
in the sequence `main` sends, the copy jobs of the traversal all come before
the termination jobs, so that a worker whose copies return runs every one of
them and then stops, and `main` returns. -/
theorem startCopyThread_job_protocol (src dst : Path) (visits : List Path) (st0 st1 : State)
    (tasks : List copyTask) (st : State)
    (hq : mainQueue src dst visits st0 = some st1)
    (hmain : workerReturns st1.copyTasks st1 = true)
    (hret : workerReturns tasks st = true) :
    (startCopyThread tasks st).1 =
      (tasks.takeWhile (fun t => !t.Bailout)).foldl
        (fun s t => copyFileMetadata t.From t.To
          (copyFileData t.From t.To (s.logf (LogLine.copying t.From t.To)))) st ∧
    (startCopyThread tasks st).1.log =
      st.log ++ (tasks.takeWhile (fun t => !t.Bailout)).flatMap
        (fun t => [LogLine.copying t.From t.To, LogLine.copyingFile t.From t.To,
          LogLine.copyingMetadata t.From t.To]) ∧
    ((startCopyThread tasks st).2 = WorkerEnd.stopped ↔ ∃ t ∈ tasks, t.Bailout = true) ∧
    ((startCopyThread tasks st).2 = WorkerEnd.polling ↔ ∀ t ∈ tasks, t.Bailout = false) ∧
    ∃ jobs : List copyTask, st1.copyTasks = jobs ++ List.replicate copyThreads bailout ∧
      (∀ j ∈ jobs, j.Bailout = false) ∧
      startCopyThread st1.copyTasks st1 = (jobs.foldl runJob st1, WorkerEnd.stopped) ∧
      main src dst visits st0 = some { jobs.foldl runJob st1 with copyTasks := [] } := by
  have h := startCopyThread_eq tasks st hret
  refine ⟨h.1, ?_, h.2.1, h.2.2, ?_⟩
  · rw [h.1]
    exact foldl_runJob_log _ st
  · obtain ⟨jobs, hj, hb, ht⟩ := mainQueue_copyTasks src dst visits st0 st1 hq
    have h1 := startCopyThread_eq st1.copyTasks st1 hmain
    have hs : (startCopyThread st1.copyTasks st1).2 = WorkerEnd.stopped := by
      rw [h1.2.1, hj]
      exact ⟨bailout, by simp [copyThreads], rfl⟩
    have he : startCopyThread st1.copyTasks st1 = (jobs.foldl runJob st1, WorkerEnd.stopped) := by
      rw [← ht, ← h1.1, ← hs]
    refine ⟨jobs, hj, hb, he, ?_⟩
    unfold main
    rw [hq]
    simp only [he, ↓reduceIte]

/-- C9, at a concrete input: the queue `main` sends on `smallTree`, the copy
job of `/a/f.txt` and the termination job, run by the worker from the state
the traversal leaves. -/
theorem startCopyThread_job_protocol_witness :
    mainQueue "/a".toList "/b".toList smallTreeVisits smallTree = some smallTreeQueued ∧
    smallTreeQueued.copyTasks = [⟨"/a/f.txt".toList, "/b/f.txt".toList, false⟩, bailout] ∧
    workerReturns smallTreeQueued.copyTasks smallTreeQueued = true ∧
    (startCopyThread smallTreeQueued.copyTasks smallTreeQueued).2 = WorkerEnd.stopped ∧
    (startCopyThread smallTreeQueued.copyTasks smallTreeQueued).1.log =
      smallTreeQueued.log ++
        [LogLine.copying "/a/f.txt".toList "/b/f.txt".toList,
         LogLine.copyingFile "/a/f.txt".toList "/b/f.txt".toList,
         LogLine.copyingMetadata "/a/f.txt".toList "/b/f.txt".toList] ∧
    main "/a".toList "/b".toList smallTreeVisits smallTree =
      some { runJob smallTreeQueued ⟨"/a/f.txt".toList, "/b/f.txt".toList, false⟩ with
        copyTasks := [] } := by
  have hq : mainQueue "/a".toList "/b".toList smallTreeVisits smallTree =
      some smallTreeQueued := by decide
  have ht : smallTreeQueued.copyTasks =
      [⟨"/a/f.txt".toList, "/b/f.txt".toList, false⟩, bailout] := by decide
  have hr : workerReturns smallTreeQueued.copyTasks smallTreeQueued = true := by decide
  have h := startCopyThread_job_protocol "/a".toList "/b".toList smallTreeVisits smallTree
    smallTreeQueued smallTreeQueued.copyTasks smallTreeQueued hq hr hr
  obtain ⟨jobs, hj, _, _, hm⟩ := h.2.2.2.2
  have hjobs : jobs = [⟨"/a/f.txt".toList, "/b/f.txt".toList, false⟩] := by
    rw [ht] at hj
    have : [⟨"/a/f.txt".toList, "/b/f.txt".toList, false⟩] ++ [bailout] =
        jobs ++ List.replicate copyThreads bailout := hj
    exact (List.append_cancel_right this).symm
  refine ⟨hq, ht, hr, h.2.2.1.mpr ⟨bailout, by rw [ht]; simp, rfl⟩, ?_, ?_⟩
  · rw [h.2.1, ht]
    rfl
  · rw [hm, hjobs]
    rfl

/-- C9, counterexample. The source holds the named pipe `/a/e`, to which
nobody writes, and the file `/a/f`; the destination is empty.  The traversal
sends the copy jobs of both and `main` the termination job after them.  The
worker does not return from opening `/a/e`: it copies neither the metadata of
that job nor the file `/a/f`, whose job precedes the termination job, and it
never stops. -/
theorem worker_blocks_on_named_pipe :
    (mainQueue "/a".toList "/b".toList ["/a".toList, "/a/e".toList, "/a/f".toList]
      pipeInSource).map State.copyTasks =
        some [⟨"/a/e".toList, "/b/e".toList, false⟩, ⟨"/a/f".toList, "/b/f".toList, false⟩,
          bailout] ∧
    (startCopyThread [⟨"/a/e".toList, "/b/e".toList, false⟩,
      ⟨"/a/f".toList, "/b/f".toList, false⟩, bailout] pipeInSource).2 = WorkerEnd.blocked ∧
    (startCopyThread [⟨"/a/e".toList, "/b/e".toList, false⟩,
      ⟨"/a/f".toList, "/b/f".toList, false⟩, bailout] pipeInSource).1.log =
        [LogLine.copying "/a/e".toList "/b/e".toList,
         LogLine.copyingFile "/a/e".toList "/b/e".toList] ∧
    (startCopyThread [⟨"/a/e".toList, "/b/e".toList, false⟩,
      ⟨"/a/f".toList, "/b/f".toList, false⟩, bailout] pipeInSource).1.fs = pipeInSource.fs ∧
    main "/a".toList "/b".toList ["/a".toList, "/a/e".toList, "/a/f".toList] pipeInSource =
      none := by
  decide

/-- C5. Path mapping is prefix substitution: for a source path `s ++ r` under
the source root `s`, the destination path `verifyPath` computes is `d ++ r`,
whatever `s`, `d` and `r` are; hence two paths under one source root with the
same destination path are equal. -/
theorem mappedPath_prefix_substitution (s d r : Path) :
    mappedPath s d (s ++ r) = d ++ r ∧
      ∀ r2 : Path, mappedPath s d (s ++ r) = mappedPath s d (s ++ r2) → s ++ r = s ++ r2 := by
  refine ⟨mappedPath_append s d r, ?_⟩
  intro r2 h
  rw [mappedPath_append, mappedPath_append] at h
  rw [List.append_cancel_left h]

/-- C10. `equalData` with the program's chunk size answers `true` for two
regular files of different content: `/x` holds one byte, `/y` the same byte
followed by a zero byte. -/
theorem equalData_accepts_trailing_zero :
    equalData chunkSize trailingZeroFiles "/x".toList "/y".toList = Outcome.value true ∧
    (trailingZeroFiles.find "/x".toList).map Node.data = some [97] ∧
    (trailingZeroFiles.find "/y".toList).map Node.data = some [97, 0] :=
  ⟨equalData_trailing_zero 4094 97 trailingZeroFiles "/x".toList "/y".toList "/x".toList
      "/y".toList (sampleNode FileType.regular 0o644 [97] [])
      (sampleNode FileType.regular 0o644 [97, 0] []) (by decide) (by decide) (by decide)
      (by decide) rfl rfl rfl rfl,
    by decide, by decide⟩

/-! ## Evaluations of verifyPath -/

/-- C1. Type-mismatch recovery fails for an empty source directory: with
source `/a/d` an empty directory and destination `/b/d` a regular file, after
`main` has visited `/a` and `/a/d` and the worker has run, nothing exists at
`/b/d`. -/
theorem type_mismatch_leaves_no_directory :
    (Lstat fileInPlaceOfDir.fs "/a/d".toList).map (fun i => i.mode.typ) = some FileType.dir ∧
    (Lstat fileInPlaceOfDir.fs "/b/d".toList).map (fun i => i.mode.typ) =
      some FileType.regular ∧
    mappedPath "/a".toList "/b".toList "/a/d".toList = "/b/d".toList ∧
    (main "/a".toList "/b".toList ["/a".toList, "/a/d".toList] fileInPlaceOfDir).map
      (fun st => Lstat st.fs "/b/d".toList) = some none := by
  decide

/-- C2. The guard removes a destination of the same type: with source
directory `/a/d` of mode `0755` and destination directory `/b/d` of mode
`0700`, `verifyPath` removes `/b/d` and the file below it, logging that the
destination has a different type, and does not create it again. -/
theorem guard_removes_same_type_destination :
    (dirWithOtherPerm.fs.find "/a/d".toList).map Node.typ = some FileType.dir ∧
    (dirWithOtherPerm.fs.find "/b/d".toList).map Node.typ = some FileType.dir ∧
    (verifyPath "/a".toList "/b".toList "/a/d".toList
      (sampleNode FileType.dir 0o755 [] []).info dirWithOtherPerm).fs.find "/b/d".toList = none ∧
    (verifyPath "/a".toList "/b".toList "/a/d".toList
      (sampleNode FileType.dir 0o755 [] []).info dirWithOtherPerm).fs.find
        "/b/d/keep".toList = none ∧
    (verifyPath "/a".toList "/b".toList "/a/d".toList
      (sampleNode FileType.dir 0o755 [] []).info dirWithOtherPerm).log =
        [LogLine.removingDestination "/b/d".toList,
         LogLine.copyingMetadata "/a/d".toList "/b/d".toList] := by
  decide

/-- C3. A difference in the permission bits alone is not handled as a
metadata update: with source file `/a/f` of mode `0644` and destination file
`/b/f` of the same length, times, owner and group and mode `0600`,
`verifyPath` removes `/b/f` and enqueues a copy job. -/
theorem permission_difference_triggers_copy :
    (fileWithOtherPerm.fs.find "/a/f".toList).map (fun n => (n.typ, n.data.length)) =
      some (FileType.regular, 3) ∧
    (fileWithOtherPerm.fs.find "/b/f".toList).map (fun n => (n.typ, n.data.length)) =
      some (FileType.regular, 3) ∧
    (verifyPath "/a".toList "/b".toList "/a/f".toList
      (sampleNode FileType.regular 0o644 [1, 2, 3] []).info fileWithOtherPerm).copyTasks =
        [⟨"/a/f".toList, "/b/f".toList, false⟩] ∧
    (verifyPath "/a".toList "/b".toList "/a/f".toList
      (sampleNode FileType.regular 0o644 [1, 2, 3] []).info fileWithOtherPerm).fs.find
        "/b/f".toList = none := by
  decide

/-- C4, counterexample. The regular file `/b/a/a` under the source root `/b/a`
is mapped to `/b/a` under the destination root `/b`, which exists as a
directory with another length; `verifyPath` removes it, the source with it,
returns and enqueues no copy job. -/
theorem nested_source_enqueues_nothing :
    sourceInsideDestination.fs.find "/b/a/a".toList =
      some (sampleNode FileType.regular 0o644 [7] []) ∧
    mappedPath "/b/a".toList "/b".toList "/b/a/a".toList = "/b/a".toList ∧
    (∃ di : FileInfo,
      Lstat sourceInsideDestination.fs (mappedPath "/b/a".toList "/b".toList "/b/a/a".toList) =
        some di ∧ di.size ≠ (sampleNode FileType.regular 0o644 [7] []).info.size) ∧
    belowNonDir sourceInsideDestination.fs
      (mappedPath "/b/a".toList "/b".toList "/b/a/a".toList) = false ∧
    verifyPathRun "/b/a".toList "/b".toList "/b/a/a".toList
      (sampleNode FileType.regular 0o644 [7] []).info sourceInsideDestination =
      (⟨[("/b".toList, sampleNode FileType.dir 0o755 [] [])], sampleProc, [],
        [LogLine.removingDestination "/b/a".toList]⟩, false) ∧
    (verifyPath "/b/a".toList "/b".toList "/b/a/a".toList
      (sampleNode FileType.regular 0o644 [7] []).info sourceInsideDestination).copyTasks = [] :=
  ⟨by decide, by decide, ⟨(sampleNode FileType.dir 0o755 [0, 0] []).info, by decide, by decide⟩,
    by decide, by decide, by decide⟩

/-- C4, why the destination must not lie below a file. With source root `/a/f`
and destination root `/b/f/x` the file `/a/f` is mapped to `/b/f/x`, which is
absent below the file `/b/f`: `os.Stat` fails there with an error other than
"does not exist", and `verifyPath` panics in `equalSize` without sending a
job. -/
theorem destination_below_file_panics :
    mappedPath "/a/f".toList "/b/f/x".toList "/a/f".toList = "/b/f/x".toList ∧
    Lstat fileOfOtherSize.fs "/b/f/x".toList = none ∧
    belowNonDir fileOfOtherSize.fs "/b/f/x".toList = true ∧
    Stat fileOfOtherSize.fs "/b/f/x".toList = StatResult.failed ∧
    equalSize fileOfOtherSize.fs "/a/f".toList "/b/f/x".toList = none ∧
    verifyPathRun "/a/f".toList "/b/f/x".toList "/a/f".toList
      (sampleNode FileType.regular 0o644 [1, 2, 3] []).info fileOfOtherSize =
      (fileOfOtherSize, true) := by
  decide

/-- C4, at a concrete input: `/a/f` has three bytes and `/b/f` one. -/
theorem size_change_enqueues_one_job_witness :
    (verifyPathRun "/a".toList "/b".toList "/a/f".toList
      (sampleNode FileType.regular 0o644 [1, 2, 3] []).info fileOfOtherSize).2 = false ∧
    (verifyPath "/a".toList "/b".toList "/a/f".toList
      (sampleNode FileType.regular 0o644 [1, 2, 3] []).info fileOfOtherSize).copyTasks =
      fileOfOtherSize.copyTasks ++
        [⟨"/a/f".toList, mappedPath "/a".toList "/b".toList "/a/f".toList, false⟩] :=
  have h := size_change_enqueues_one_job "/a".toList "/b".toList "/a/f".toList
    (sampleNode FileType.regular 0o644 [1, 2, 3] []) fileOfOtherSize (by decide) (by decide)
    (Or.inr ⟨(sampleNode FileType.regular 0o644 [9] []).info, by decide, by decide⟩)
    (by decide) (by decide)
  ⟨h.1, h.2.1⟩

/-- C6, at a concrete input: the link `/a/l` to `/a/f` is created as `/b/l`
with target `/b/f`. -/
theorem symlink_target_is_rewritten_witness :
    ∃ m, (verifyPath "/a".toList "/b".toList "/a/l".toList
        (sampleNode FileType.symlink 0o777 [] "/a/f".toList).info linkToSource).fs.find
          (mappedPath "/a".toList "/b".toList "/a/l".toList) = some m ∧
      m.typ = FileType.symlink ∧ m.target = "/b".toList ++ "/f".toList :=
  (symlink_target_is_rewritten "/a".toList "/b".toList "/f".toList "/a/l".toList
    (sampleNode FileType.symlink 0o777 [] "/a/f".toList) linkToSource (by decide) (by decide)
    (by decide) (by decide)).2.1 (by decide) (by decide)

/-! ## Idempotence and failed copy jobs -/

theorem metadata_typ {n m : Node} (h : m.metadata = n.metadata) : m.typ = n.typ := by
  have := congrArg fileInfo.Mode h
  exact mode_eq_typ this

/-- C7, counterexample. The source holds the character device `/a/null`. The
first run completes without a failing call, copies it to the regular file
`/b/null` with the metadata of the source and leaves the source as it was; the
second run finds another mode at `/b/null` and sends the copy job again. -/
theorem device_is_enqueued_again :
    mainFails "/a".toList "/b".toList ["/a".toList, "/a/null".toList] deviceInSource = false ∧
    (main "/a".toList "/b".toList ["/a".toList, "/a/null".toList] deviceInSource).map
      (fun st => st.fs.find "/b/null".toList) =
        some (some (sampleNode FileType.regular 0o666 [] [])) ∧
    (main "/a".toList "/b".toList ["/a".toList, "/a/null".toList] deviceInSource).map
      (fun st => (st.fs.find "/a".toList, st.fs.find "/a/null".toList)) =
        some (deviceInSource.fs.find "/a".toList, deviceInSource.fs.find "/a/null".toList) ∧
    ((main "/a".toList "/b".toList ["/a".toList, "/a/null".toList] deviceInSource).bind
      (mainQueue "/a".toList "/b".toList ["/a".toList, "/a/null".toList])).map
        State.copyTasks = some [⟨"/a/null".toList, "/b/null".toList, false⟩, bailout] := by
  decide

/-- C8. A failed content copy does not keep the worker from writing metadata:
the content copy of the job from `/a/f` to `/b/d` fails, since `/b/d` is a
directory; the worker then runs the metadata copy of the job, which writes the
times, owner, group and permission bits of `/a/f` to `/b/d`, and goes on to
the termination job. -/
theorem failed_copy_still_writes_metadata :
    (copyFileDataErr "/a/f".toList "/b/d".toList
      (dirAsTarget.logf (LogLine.copying "/a/f".toList "/b/d".toList))).2 = CopyEnd.failed ∧
    dirAsTarget.fs.find "/a/f".toList = some ⟨FileType.regular, 0o644, 1000, 1000, 10, 20,
      [1, 2, 3], []⟩ ∧
    dirAsTarget.fs.find "/b/d".toList = some ⟨FileType.dir, 0o700, 0, 0, 1, 2, [], []⟩ ∧
    (startCopyThread [⟨"/a/f".toList, "/b/d".toList, false⟩, bailout] dirAsTarget).1.fs.find
      "/b/d".toList = some ⟨FileType.dir, 0o644, 1000, 1000, 10, 20, [], []⟩ ∧
    (startCopyThread [⟨"/a/f".toList, "/b/d".toList, false⟩, bailout] dirAsTarget).1.log =
      [LogLine.copying "/a/f".toList "/b/d".toList,
       LogLine.copyingFile "/a/f".toList "/b/d".toList,
       LogLine.copyingMetadata "/a/f".toList "/b/d".toList] ∧
    (startCopyThread [⟨"/a/f".toList, "/b/d".toList, false⟩, bailout] dirAsTarget).2 =
      WorkerEnd.stopped := by
  decide

/-! ## MkdirAll -/

theorem Mkdir_cases (st : State) (p : Path) (perm : FileMode) :
    ((Mkdir st p perm).2 = true ∧ (Mkdir st p perm).1 = st) ∨
    ((Mkdir st p perm).2 = false ∧ st.fs.find p = none ∧
      ∃ n : Node, n.typ = FileType.dir ∧ (Mkdir st p perm).1 = { st with fs := st.fs.put p n }) := by
  unfold Mkdir
  split
  · exact Or.inl ⟨rfl, rfl⟩
  · rename_i h0
    split
    · exact Or.inr ⟨rfl, h0, _, rfl, rfl⟩
    · exact Or.inl ⟨rfl, rfl⟩

/-- `MkdirAll` changes nothing but to create directories at paths above or at
its argument where nothing existed. -/
theorem MkdirAllAux_find (k : Nat) : ∀ (st : State) (p : Path) (perm : FileMode) (q : Path),
    (MkdirAllAux k st p perm).1.fs.find q = st.fs.find q ∨
    (st.fs.find q = none ∧ isUnder q p = true ∧
      ∃ m, (MkdirAllAux k st p perm).1.fs.find q = some m ∧ m.typ = FileType.dir) := by
  induction k with
  | zero => intro st p perm q; exact Or.inl rfl
  | succ k ih =>
    intro st p perm q
    unfold MkdirAllAux
    split
    · exact Or.inl rfl
    · have hr : (if parentOf p ≠ [] then MkdirAllAux k st (parentOf p) perm else (st, false)).1.fs.find q
            = st.fs.find q ∨
          (st.fs.find q = none ∧ isUnder q p = true ∧
            ∃ m, (if parentOf p ≠ [] then MkdirAllAux k st (parentOf p) perm
              else (st, false)).1.fs.find q = some m ∧ m.typ = FileType.dir) := by
        split
        · rename_i hp
          rcases ih st (parentOf p) perm q with h | ⟨h1, h2, h3⟩
          · exact Or.inl h
          · exact Or.inr ⟨h1, isUnder_trans h2 (parentOf_isUnder p hp), h3⟩
        · exact Or.inl rfl
      simp only []
      generalize (if parentOf p ≠ [] then MkdirAllAux k st (parentOf p) perm else (st, false)) = r
        at hr
      split
      · exact hr
      · rcases Mkdir_cases r.1 p perm with ⟨hf, hs⟩ | ⟨hf, h0, n, hn, hs⟩
        · rw [if_pos hf]
          split <;> (simp only [hs]; exact hr)
        · rw [if_neg (by simp [hf]), hs]
          simp only [find_put]
          by_cases hq : q = p
          · subst hq
            simp only [↓reduceIte]
            rcases hr with h | ⟨h1, _, _⟩
            · exact Or.inr ⟨by rw [← h, h0], isUnder_self q, n, rfl, hn⟩
            · exact Or.inr ⟨h1, isUnder_self q, n, rfl, hn⟩
          · simp only [hq, ↓reduceIte]
            exact hr

theorem MkdirAll_find (st : State) (p : Path) (perm : FileMode) (q : Path) :
    (MkdirAll st p perm).1.fs.find q = st.fs.find q ∨
    (st.fs.find q = none ∧ isUnder q p = true ∧
      ∃ m, (MkdirAll st p perm).1.fs.find q = some m ∧ m.typ = FileType.dir) :=
  MkdirAllAux_find _ st p perm q

theorem MkdirAllAux_of_absent (k : Nat) (st : State) (p : Path) (perm : FileMode)
    (h0 : st.fs.find p = none) :
    MkdirAllAux (k + 1) st p perm =
      (let r := if parentOf p ≠ [] then MkdirAllAux k st (parentOf p) perm else (st, false)
       if r.2 then r
       else
         let m := Mkdir r.1 p perm
         if m.2 then
           match Lstat m.1.fs p with
           | some i => (m.1, !i.IsDir)
           | none => (m.1, true)
         else m) := by
  rw [MkdirAllAux, Stat_of_absent st.fs p h0]
  by_cases hb : belowNonDir st.fs p = true <;> simp [hb]

/-- A `MkdirAll` that succeeds on a path where nothing exists leaves a
directory there. -/
theorem MkdirAll_ok (st : State) (p : Path) (perm : FileMode) (h0 : st.fs.find p = none)
    (hok : (MkdirAll st p perm).2 = false) :
    ∃ m, (MkdirAll st p perm).1.fs.find p = some m ∧ m.typ = FileType.dir := by
  unfold MkdirAll at hok ⊢
  rw [MkdirAllAux_of_absent _ st p perm h0] at hok ⊢
  simp only [] at hok ⊢
  generalize (if parentOf p ≠ [] then MkdirAllAux p.length st (parentOf p) perm
    else (st, false)) = r at hok ⊢
  by_cases hr : r.2 = true
  · rw [if_pos hr] at hok
    rw [hr] at hok
    cases hok
  · rw [if_neg hr] at hok ⊢
    rcases Mkdir_cases r.1 p perm with ⟨hf, hs⟩ | ⟨hf, _, n, hn, hs⟩
    · rw [if_pos hf] at hok ⊢
      split at hok
      · rename_i i hL
        simp only [Bool.not_eq_false'] at hok
        obtain ⟨m, hm, hmi⟩ : ∃ m, (Mkdir r.1 p perm).1.fs.find p = some m ∧ m.info = i := by
          simpa [Lstat] using hL
        rw [← hmi, info_IsDir] at hok
        exact ⟨m, hm, by simpa using hok⟩
      · cases hok
    · rw [if_neg (by simp [hf]), hs]
      exact ⟨n, by simp [find_put], hn⟩

/-! ## One visit of the traversal -/

theorem ne_of_not_isUnder {a b : Path} (h : isUnder a b = false) : b ≠ a := by
  intro e
  rw [e, isUnder_self] at h
  cases h

theorem verifyPathFails_regular (s d p : Path) (n : Node) (st : State)
    (hreg : n.typ = FileType.regular) :
    verifyPathFails s d p n.info st =
      (let st1 := removeMismatch n.info (Lstat st.fs (mappedPath s d p)) (mappedPath s d p) st
       match equalSize st1.fs p (mappedPath s d p) with
       | none => true
       | some false => false
       | some true =>
         match equalMetadata st1.fs p (mappedPath s d p) with
         | none => true
         | some false => copyFileMetadataFails p (mappedPath s d p) st1
         | some true => false) := by
  have h1 : n.info.IsDir = false := by rw [info_IsDir, hreg]; decide
  have h2 : ¬ n.info.mode.typ = FileType.symlink := by
    rw [info_mode, Node.mode_typ, hreg]; decide
  unfold verifyPathFails
  simp only [h1, h2, Bool.false_eq_true, ↓reduceIte]

theorem visit_regular (s d p : Path) (n : Node) (st : State)
    (hfind : st.fs.find p = some n) (hreg : n.typ = FileType.regular)
    (hself : isUnder (mappedPath s d p) p = false)
    (hok : verifyPathFails s d p n.info st = false) :
    (verifyPathRun s d p n.info st).2 = false ∧
    Settled s d (verifyPath s d p n.info st).fs (verifyPath s d p n.info st).copyTasks p ∧
    (∀ q, Touched n (mappedPath s d p) st.fs (verifyPath s d p n.info st).fs q) ∧
    ((verifyPath s d p n.info st).copyTasks = st.copyTasks ∨
      (verifyPath s d p n.info st).copyTasks =
        st.copyTasks ++ [⟨p, mappedPath s d p, false⟩]) := by
  have tn : n.typ ≠ FileType.symlink := by rw [hreg]; decide
  have hne : p ≠ mappedPath s d p := ne_of_not_isUnder hself
  have hv := verifyPathRun_regular s d p n st hreg
  rw [verifyPathFails_regular s d p n st hreg] at hok
  unfold verifyPath
  generalize hdst : mappedPath s d p = dst at *
  generalize verifyPathRun s d p n.info st = r at *
  cases h0 : st.fs.find dst with
  | none =>
    have hL : Lstat st.fs dst = none := (Lstat_eq_none _ _).mpr h0
    simp only [hL, removeMismatch_of_absent] at hv hok
    rw [equalSize_of_absent_right st.fs _ _ n hfind tn h0] at hv hok
    by_cases hb : belowNonDir st.fs dst = true
    · rw [hb] at hok
      simp at hok
    · simp only [hb, Bool.false_eq_true, ↓reduceIte] at hv
      subst hv hdst
      exact ⟨rfl, Or.inr ⟨n, hfind, hreg, by simp, Or.inl h0⟩, fun q => Or.inl rfl, Or.inr rfl⟩
  | some m =>
    have hL : Lstat st.fs dst = some m.info := by simp [Lstat, h0]
    simp only [hL] at hv hok
    by_cases hmode : n.info.mode = m.info.mode
    · have tm : m.typ = FileType.regular := by rw [← mode_eq_typ hmode]; exact hreg
      have tm2 : m.typ ≠ FileType.symlink := by rw [tm]; decide
      rw [removeMismatch_of_same _ _ _ _ hmode] at hv
      rw [equalSize_of_not_symlink st.fs _ _ n m hfind h0 tn tm2] at hv
      by_cases hsz : n.size = m.size
      · -- same size: at most a metadata copy
        subst hdst
        have hmir : Mirrored s d st.fs p :=
          ⟨n, m, hfind, h0, hmode, Or.inl ⟨hreg, by simpa [Node.size, tn, tm2] using hsz.symm⟩⟩
        simp only [hsz, decide_True] at hv
        rw [metadata_step st p _ n m hfind h0 hmode tn] at hv
        split at hv
        · subst hv
          exact ⟨rfl, Or.inl hmir, fun q => Or.inl rfl, Or.inl rfl⟩
        · subst hv
          refine ⟨rfl, Or.inl (mirrored_of_sameShape
            (metadata_step_sameShape st _ n m h0 hmode tn) hmir), ?_, Or.inl rfl⟩
          intro q
          by_cases hq : q = mappedPath s d p
          · exact Or.inr (Or.inl hq)
          · exact Or.inl (by simp [find_put, hq])
      · simp only [hsz, decide_False] at hv
        subst hv hdst
        exact ⟨rfl, Or.inr ⟨n, hfind, hreg, by simp, Or.inr ⟨m, h0, tm⟩⟩, fun q => Or.inl rfl,
          Or.inr rfl⟩
    · rw [removeMismatch_of_different _ _ _ _ hmode] at hv hok
      have hs : (RemoveAll (st.logf (LogLine.removingDestination dst)) dst).fs.find p = some n := by
        simp [RemoveAll_fs, find_eraseTree, hself, hfind]
      have hd : (RemoveAll (st.logf (LogLine.removingDestination dst)) dst).fs.find dst = none := by
        simp [RemoveAll_fs, find_eraseTree, isUnder_self]
      rw [equalSize_of_absent_right _ _ _ n hs tn hd] at hv hok
      by_cases hb : belowNonDir (RemoveAll (st.logf (LogLine.removingDestination dst)) dst).fs dst
          = true
      · rw [hb] at hok
        simp at hok
      · simp only [hb, Bool.false_eq_true, ↓reduceIte] at hv
        subst hv hdst
        refine ⟨rfl, Or.inr ⟨n, hs, hreg, by simp, Or.inl hd⟩, ?_, Or.inr rfl⟩
        intro q
        by_cases hq : isUnder (mappedPath s d p) q = true
        · exact Or.inr (Or.inr (Or.inl ⟨hreg, hq⟩))
        · exact Or.inl (by simp [RemoveAll_fs, find_eraseTree, hq])

theorem verifyPathFails_dir (s d p : Path) (n : Node) (st : State)
    (hdir : n.typ = FileType.dir) :
    verifyPathFails s d p n.info st =
      (let dstPath := mappedPath s d p
       let st1 := removeMismatch n.info (Lstat st.fs dstPath) dstPath st
       if (Lstat st.fs dstPath).isNone then
         (MkdirAll (st1.logf (LogLine.creatingDirectory dstPath)) dstPath n.info.mode).2 ||
           copyFileMetadataFails p dstPath
             (MkdirAll (st1.logf (LogLine.creatingDirectory dstPath)) dstPath n.info.mode).1
       else
         match equalMetadata st1.fs p dstPath with
         | none => true
         | some false => copyFileMetadataFails p dstPath st1
         | some true => false) := by
  have h1 : n.info.IsDir = true := by rw [info_IsDir, hdir]; decide
  unfold verifyPathFails
  simp only [h1, ↓reduceIte]

theorem verifyPathFails_symlink (s d p : Path) (n : Node) (st : State)
    (hlink : n.typ = FileType.symlink) :
    verifyPathFails s d p n.info st =
      (let dstPath := mappedPath s d p
       let st1 := removeMismatch n.info (Lstat st.fs dstPath) dstPath st
       let target := stringsReplace1 (Readlink st1.fs p) s d
       if (Lstat st.fs dstPath).isNone then
         ReadlinkFails st1.fs p ||
           (Symlink (st1.logf (LogLine.creatingSymlink dstPath)) target dstPath).2
       else if Readlink st1.fs dstPath ≠ target then
         ReadlinkFails st1.fs p || ReadlinkFails st1.fs dstPath ||
           (Remove (st1.logf (LogLine.replacingSymlink dstPath)) dstPath).2 ||
           (Symlink (Remove (st1.logf (LogLine.replacingSymlink dstPath)) dstPath).1
             target dstPath).2
       else ReadlinkFails st1.fs p || ReadlinkFails st1.fs dstPath) := by
  unfold verifyPathFails
  simp [info_IsDir, info_mode, Node.mode_typ, hlink]

theorem copyFileMetadataFails_of_absent (src dst : Path) (st : State)
    (h : st.fs.find dst = none) : copyFileMetadataFails src dst st = true := by
  unfold copyFileMetadataFails
  simp only []
  split
  · rfl
  · rw [setFileMetadata_of_absent _ dst _ (by simpa using h)]
    simp

theorem visit_dir (s d p : Path) (n : Node) (st : State)
    (hfind : st.fs.find p = some n) (hdir : n.typ = FileType.dir)
    (hself : isUnder (mappedPath s d p) p = false)
    (hok : verifyPathFails s d p n.info st = false) :
    (verifyPathRun s d p n.info st).2 = false ∧
    Mirrored s d (verifyPath s d p n.info st).fs p ∧
    (∀ q, Touched n (mappedPath s d p) st.fs (verifyPath s d p n.info st).fs q) ∧
    (verifyPath s d p n.info st).copyTasks = st.copyTasks := by
  have tn : n.typ ≠ FileType.symlink := by rw [hdir]; decide
  have hne : p ≠ mappedPath s d p := ne_of_not_isUnder hself
  have hv := verifyPathRun_dir s d p n st hdir
  rw [verifyPathFails_dir s d p n st hdir] at hok
  unfold verifyPath
  generalize verifyPathRun s d p n.info st = r at *
  cases h0 : st.fs.find (mappedPath s d p) with
  | none =>
    have hL : Lstat st.fs (mappedPath s d p) = none := (Lstat_eq_none _ _).mpr h0
    simp only [hL, removeMismatch_of_absent, Option.isNone_none, ↓reduceIte,
      Bool.or_eq_false_iff] at hv hok
    -- the directory `MkdirAll` leaves
    obtain ⟨k, hk, tk⟩ := MkdirAll_ok _ (mappedPath s d p) n.info.mode
      (by simpa using h0) hok.1
    have tk2 : k.typ ≠ FileType.symlink := by rw [tk]; decide
    have hsrc : (MkdirAll (st.logf (LogLine.creatingDirectory (mappedPath s d p)))
        (mappedPath s d p) n.info.mode).1.fs.find p = some n := by
      rcases MkdirAll_find (st.logf (LogLine.creatingDirectory (mappedPath s d p)))
        (mappedPath s d p) n.info.mode p with h | ⟨h, _, _⟩
      · rw [h]; exact hfind
      · rw [logf_fs, hfind] at h; cases h
    rw [copyFileMetadataRun_of_not_symlink _ p _ n k hsrc tn hk tk2] at hv
    subst hv
    refine ⟨rfl, ⟨n, k.withMetadata n.metadata, ?_, ?_, ?_, Or.inr (Or.inl hdir)⟩, ?_, ?_⟩
    · simp [find_put, hne, hsrc]
    · simp [find_put]
    · simp [Node.mode, Node.withMetadata, Node.metadata, hdir, tk]
    · intro q
      by_cases hq : q = mappedPath s d p
      · exact Or.inr (Or.inl hq)
      · rcases MkdirAll_find (st.logf (LogLine.creatingDirectory (mappedPath s d p)))
          (mappedPath s d p) n.info.mode q with h | ⟨h1, h2, _⟩
        · exact Or.inl (by simp [find_put, hq, h])
        · exact Or.inr (Or.inr (Or.inr ⟨hdir, by simpa using h1, h2⟩))
    · exact (MkdirAll_same _ _ _).2.1
  | some m =>
    have hL : Lstat st.fs (mappedPath s d p) = some m.info := by simp [Lstat, h0]
    simp only [hL, Option.isNone_some, Bool.false_eq_true, ↓reduceIte] at hv hok
    by_cases hmode : n.info.mode = m.info.mode
    · have hmir : Mirrored s d st.fs p := ⟨n, m, hfind, h0, hmode, Or.inr (Or.inl hdir)⟩
      have tm2 : m.typ ≠ FileType.symlink := by rw [← mode_eq_typ hmode]; exact tn
      rw [removeMismatch_of_same _ _ _ _ hmode] at hv
      rw [metadata_step st p _ n m hfind h0 hmode tn] at hv
      split at hv
      · subst hv
        exact ⟨rfl, hmir, fun q => Or.inl rfl, rfl⟩
      · subst hv
        refine ⟨rfl, mirrored_of_sameShape (metadata_step_sameShape st _ n m h0 hmode tn) hmir,
          ?_, rfl⟩
        intro q
        by_cases hq : q = mappedPath s d p
        · exact Or.inr (Or.inl hq)
        · exact Or.inl (by simp [find_put, hq])
    · -- the destination is removed and never created again: a call fails
      exfalso
      rw [removeMismatch_of_different _ _ _ _ hmode] at hok
      have hs : (RemoveAll (st.logf (LogLine.removingDestination (mappedPath s d p)))
          (mappedPath s d p)).fs.find p = some n := by
        simp [RemoveAll_fs, find_eraseTree, hself, hfind]
      have hd : (RemoveAll (st.logf (LogLine.removingDestination (mappedPath s d p)))
          (mappedPath s d p)).fs.find (mappedPath s d p) = none := by
        simp [RemoveAll_fs, find_eraseTree, isUnder_self]
      rw [equalMetadata_of_absent_right _ _ _ n hs tn hd,
        copyFileMetadataFails_of_absent _ _ _ hd] at hok
      by_cases hb : belowNonDir (RemoveAll (st.logf (LogLine.removingDestination
          (mappedPath s d p))) (mappedPath s d p)).fs (mappedPath s d p) = true
      · simp [hb] at hok
      · simp [hb] at hok

theorem ReadlinkFails_of_symlink (fs : FS) (p : Path) (n : Node) (h : fs.find p = some n)
    (ht : n.typ = FileType.symlink) : ReadlinkFails fs p = false := by
  simp [ReadlinkFails, h, ht]

theorem ReadlinkFails_of_absent (fs : FS) (p : Path) (h : fs.find p = none) :
    ReadlinkFails fs p = true := by
  simp [ReadlinkFails, h]

theorem Symlink_ok (st : State) (t p : Path) (h0 : st.fs.find p = none)
    (hok : (Symlink st t p).2 = false) :
    (Symlink st t p).1 =
      { st with fs := st.fs.put p (st.proc.newNode FileType.symlink 0o777 t) } := by
  unfold Symlink at hok ⊢
  rw [h0] at hok ⊢
  simp only [] at hok ⊢
  split
  · rfl
  · rename_i hc
    rw [if_neg hc] at hok
    cases hok

theorem Remove_symlink (st : State) (p : Path) (m : Node) (h0 : st.fs.find p = some m)
    (tm : m.typ = FileType.symlink) :
    Remove st p = ({ st with fs := st.fs.erase p }, false) := by
  simp [Remove, h0, tm]

theorem visit_symlink (s d p : Path) (n : Node) (st : State)
    (hfind : st.fs.find p = some n) (hlink : n.typ = FileType.symlink)
    (hself : isUnder (mappedPath s d p) p = false)
    (hok : verifyPathFails s d p n.info st = false) :
    Mirrored s d (verifyPath s d p n.info st).fs p ∧
    (∀ q, (verifyPath s d p n.info st).fs.find q = st.fs.find q ∨ q = mappedPath s d p) ∧
    (verifyPath s d p n.info st).copyTasks = st.copyTasks := by
  have hne : p ≠ mappedPath s d p := ne_of_not_isUnder hself
  have hv := verifyPath_symlink s d p n st hlink
  rw [verifyPathFails_symlink s d p n st hlink] at hok
  generalize verifyPath s d p n.info st = st1 at *
  cases h0 : st.fs.find (mappedPath s d p) with
  | none =>
    have hL : Lstat st.fs (mappedPath s d p) = none := (Lstat_eq_none _ _).mpr h0
    simp only [hL, removeMismatch_of_absent, Option.isNone_none, ↓reduceIte,
      Bool.or_eq_false_iff] at hv hok
    rw [Symlink_ok _ _ _ (by simpa using h0) hok.2, Readlink_of_symlink st.fs p n hfind hlink]
      at hv
    subst hv
    refine ⟨⟨n, st.proc.newNode FileType.symlink 0o777 (stringsReplace1 n.target s d),
      ?_, ?_, ?_, Or.inr (Or.inr ⟨hlink, rfl⟩)⟩, ?_, rfl⟩
    · simp [find_put, hne, hfind]
    · simp [find_put]
    · rw [symlink_mode n hlink, symlink_mode _ rfl]
    · intro q
      by_cases hq : q = mappedPath s d p
      · exact Or.inr hq
      · exact Or.inl (by simp [find_put, hq])
  | some m =>
    have hL : Lstat st.fs (mappedPath s d p) = some m.info := by simp [Lstat, h0]
    simp only [hL, Option.isNone_some, Bool.false_eq_true, ↓reduceIte] at hv hok
    by_cases hmode : n.info.mode = m.info.mode
    · have tm : m.typ = FileType.symlink := by rw [← mode_eq_typ hmode]; exact hlink
      rw [removeMismatch_of_same _ _ _ _ hmode] at hv hok
      rw [Readlink_of_symlink st.fs p n hfind hlink, Readlink_of_symlink st.fs _ m h0 tm]
        at hv hok
      by_cases htgt : m.target = stringsReplace1 n.target s d
      · simp only [htgt, ne_eq, not_true_eq_false, ↓reduceIte] at hv
        subst hv
        exact ⟨⟨n, m, hfind, h0, hmode, Or.inr (Or.inr ⟨hlink, htgt⟩)⟩, fun q => Or.inl rfl, rfl⟩
      · simp only [ne_eq, htgt, not_false_eq_true, ↓reduceIte, Bool.or_eq_false_iff] at hv hok
        rw [Remove_symlink _ _ m (by simpa using h0) tm] at hv hok
        rw [Symlink_ok _ _ _ (by simp [find_erase]) hok.2] at hv
        subst hv
        refine ⟨⟨n, st.proc.newNode FileType.symlink 0o777 (stringsReplace1 n.target s d),
          ?_, ?_, ?_, Or.inr (Or.inr ⟨hlink, rfl⟩)⟩, ?_, rfl⟩
        · simp [find_put, find_erase, hne, hfind]
        · simp [find_put]
        · rw [symlink_mode n hlink, symlink_mode _ rfl]
        · intro q
          by_cases hq : q = mappedPath s d p
          · exact Or.inr hq
          · exact Or.inl (by simp [find_put, find_erase, hq])
    · -- the destination is removed and `Readlink` on it fails
      exfalso
      rw [removeMismatch_of_different _ _ _ _ hmode] at hok
      have hd : (RemoveAll (st.logf (LogLine.removingDestination (mappedPath s d p)))
          (mappedPath s d p)).fs.find (mappedPath s d p) = none := by
        simp [RemoveAll_fs, find_eraseTree, isUnder_self]
      rw [ReadlinkFails_of_absent _ _ hd] at hok
      split at hok <;> simp at hok

/-! ## The traversal -/

theorem SourceTree.under_root {s d : Path} {visits : List Path} {fs : FS}
    (T : SourceTree s d visits fs) (p : Path) (hp : p ∈ visits) : s <+: p :=
  List.isPrefixOf_iff_prefix.mp (T.under p hp)

theorem SourceTree.kind_exists {s d : Path} {visits : List Path} {fs : FS}
    (T : SourceTree s d visits fs) (p : Path) (hp : p ∈ visits) :
    ∃ n, fs.find p = some n ∧
      (n.typ = FileType.regular ∨ n.typ = FileType.dir ∨ n.typ = FileType.symlink) := by
  have h := T.kind p hp
  cases hf : fs.find p with
  | none => rw [hf] at h; simp at h
  | some n =>
    rw [hf] at h
    refine ⟨n, rfl, ?_⟩
    simpa using h

theorem SourceTree.tree_exists {s d : Path} {visits : List Path} {fs : FS}
    (T : SourceTree s d visits fs) (p : Path) (hp : p ∈ visits) (q : Path) (hq : q ∈ visits)
    (h : isUnder p q = true) (hne : q ≠ p) : ∃ n, fs.find p = some n ∧ n.typ = FileType.dir := by
  have h := T.tree p hp q hq h hne
  cases hf : fs.find p with
  | none => rw [hf] at h; simp at h
  | some n =>
    rw [hf] at h
    exact ⟨n, rfl, by simpa using h⟩

theorem visit (s d p : Path) (n : Node) (st : State)
    (hfind : st.fs.find p = some n)
    (hkind : n.typ = FileType.regular ∨ n.typ = FileType.dir ∨ n.typ = FileType.symlink)
    (hself : isUnder (mappedPath s d p) p = false)
    (hok : verifyPathFails s d p n.info st = false) :
    (verifyPathRun s d p n.info st).2 = false ∧
    Settled s d (verifyPath s d p n.info st).fs (verifyPath s d p n.info st).copyTasks p ∧
    (∀ q, Touched n (mappedPath s d p) st.fs (verifyPath s d p n.info st).fs q) ∧
    ((verifyPath s d p n.info st).copyTasks = st.copyTasks ∨
      (n.typ = FileType.regular ∧ (verifyPath s d p n.info st).copyTasks =
        st.copyTasks ++ [⟨p, mappedPath s d p, false⟩])) := by
  rcases hkind with h | h | h
  · obtain ⟨h0, h1, h2, h3⟩ := visit_regular s d p n st hfind h hself hok
    exact ⟨h0, h1, h2, h3.imp id (fun e => ⟨h, e⟩)⟩
  · obtain ⟨h0, h1, h2, h3⟩ := visit_dir s d p n st hfind h hself hok
    exact ⟨h0, Or.inl h1, h2, Or.inl h3⟩
  · obtain ⟨h1, h2, h3⟩ := visit_symlink s d p n st hfind h hself hok
    refine ⟨?_, Or.inl h1, fun q => (h2 q).imp id (fun e => Or.inl e), Or.inl h3⟩
    rw [verifyPathRun_symlink s d p n st h]

theorem isUnder_mapped {s d : Path} {p q : Path} (hp : s <+: p) (hq : s <+: q) :
    isUnder (mappedPath s d p) (mappedPath s d q) = isUnder p q := by
  obtain ⟨r, rfl⟩ := hp
  obtain ⟨r2, rfl⟩ := hq
  rw [mappedPath_append, mappedPath_append, isUnder_append_left, isUnder_append_left]

theorem mapped_injective {s d : Path} {p q : Path} (hp : s <+: p) (hq : s <+: q)
    (h : mappedPath s d p = mappedPath s d q) : p = q := by
  obtain ⟨r, rfl⟩ := hp
  obtain ⟨r2, rfl⟩ := hq
  rw [mappedPath_append, mappedPath_append] at h
  rw [List.append_cancel_left h]

theorem Settled.transfer {s d : Path} {fs fs1 : FS} {jobs jobs1 : List copyTask} {p : Path}
    (h : Settled s d fs jobs p) (hp : fs1.find p = fs.find p)
    (hd : fs1.find (mappedPath s d p) = fs.find (mappedPath s d p))
    (hj : ∀ j ∈ jobs, j ∈ jobs1) : Settled s d fs1 jobs1 p := by
  rcases h with ⟨n, m, h1, h2, h3⟩ | ⟨n, h1, h2, h3, h4⟩
  · exact Or.inl ⟨n, m, by rw [hp, h1], by rw [hd, h2], h3⟩
  · exact Or.inr ⟨n, by rw [hp, h1], h2, hj _ h3, by rw [hd]; exact h4⟩

theorem walk_step (s d : Path) (visits : List Path) (fs0 : FS) (V : List Path) (st : State)
    (T : SourceTree s d visits fs0) (hV : ∀ p ∈ V, p ∈ visits) (inv : WalkInv s d visits fs0 V st)
    (p : Path) (hp : p ∈ visits) (n : Node) (hn : st.fs.find p = some n)
    (hok : verifyPathFails s d p n.info (st.logf (LogLine.checking p)) = false) :
    (verifyPathRun s d p n.info (st.logf (LogLine.checking p))).2 = false ∧
    WalkInv s d visits fs0 (p :: V)
      (verifyPath s d p n.info (st.logf (LogLine.checking p))) := by
  obtain ⟨isrc, iset, ijobs⟩ := inv
  have hkind : n.typ = FileType.regular ∨ n.typ = FileType.dir ∨ n.typ = FileType.symlink := by
    obtain ⟨n0, h0, hk⟩ := T.kind_exists p hp
    rw [← isrc p hp, hn] at h0
    cases h0
    exact hk
  obtain ⟨hret, hset, htouch, hq⟩ := visit s d p n (st.logf (LogLine.checking p)) hn hkind
    (T.apart p hp p hp) hok
  refine ⟨hret, ?_⟩
  simp only [logf_fs, logf_copyTasks] at htouch hq
  generalize verifyPath s d p n.info (st.logf (LogLine.checking p)) = st1 at *
  have hmono : ∀ j ∈ st.copyTasks, j ∈ st1.copyTasks := by
    intro j hj
    rcases hq with e | ⟨_, e⟩ <;> rw [e]
    · exact hj
    · exact List.mem_append_left _ hj
  -- the source is not touched
  have hsrc : ∀ q ∈ visits, st1.fs.find q = st.fs.find q := by
    intro q hqv
    rcases htouch q with h | h | ⟨_, h⟩ | ⟨_, h, _⟩
    · exact h
    · have := T.apart q hqv p hp
      rw [h, isUnder_self] at this
      cases this
    · rw [T.apart q hqv p hp] at h
      cases h
    · obtain ⟨n0, h0, _⟩ := T.kind_exists q hqv
      rw [isrc q hqv, h0] at h
      cases h
  refine ⟨fun q hqv => (hsrc q hqv).trans (isrc q hqv), ?_, ?_⟩
  · intro q hqV
    rcases List.mem_cons.mp hqV with e | hqV
    · rw [e]; exact hset
    · by_cases hqp : q = p
      · rw [hqp]; exact hset
      · have hqv := hV q hqV
        refine (iset q hqV).transfer (hsrc q hqv) ?_ hmono
        rcases htouch (mappedPath s d q) with h | h | ⟨hreg, h⟩ | ⟨hdir, h0, h⟩
        · exact h
        · exact absurd (mapped_injective (T.under_root q hqv) (T.under_root p hp) h) hqp
        · -- a regular file has nothing below it
          rw [isUnder_mapped (T.under_root p hp) (T.under_root q hqv)] at h
          obtain ⟨n0, h0, hd⟩ := T.tree_exists p hp q hqv h hqp
          rw [← isrc p hp, hn] at h0
          cases h0
          rw [hreg] at hd
          cases hd
        · -- what lies above a visited entry is a directory, which exists once settled
          rw [isUnder_mapped (T.under_root q hqv) (T.under_root p hp)] at h
          obtain ⟨n0, hn0, hd⟩ := T.tree_exists q hqv p hp h (fun e => hqp e.symm)
          rcases iset q hqV with ⟨_, m, _, hm, _⟩ | ⟨n1, hn1, hreg, _⟩
          · rw [hm] at h0; cases h0
          · rw [isrc q hqv, hn0] at hn1
            cases hn1
            rw [hreg] at hd
            cases hd
  · intro j hj
    rcases hq with e | ⟨hreg, e⟩
    · rw [e] at hj; exact ijobs j hj
    · rw [e] at hj
      rcases List.mem_append.mp hj with h | h
      · exact ijobs j h
      · rw [List.mem_singleton.mp h]
        exact ⟨p, hp, rfl, n, by rw [← isrc p hp, hn], hreg⟩

theorem walk_settles (s d : Path) (visits : List Path) (fs0 : FS) (T : SourceTree s d visits fs0) :
    ∀ (rest V : List Path) (st : State), (∀ p ∈ rest, p ∈ visits) → (∀ p ∈ V, p ∈ visits) →
    WalkInv s d visits fs0 V st → walkFails s d rest st = false →
    ∃ st1, walk s d rest st = some st1 ∧ WalkInv s d visits fs0 (rest ++ V) st1 := by
  intro rest
  induction rest with
  | nil => intro V st _ _ inv _; exact ⟨st, rfl, inv⟩
  | cons p rest ih =>
    intro V st hrest hV inv hok
    have hp : p ∈ visits := hrest p (List.mem_cons_self _ _)
    obtain ⟨n0, h0, _⟩ := T.kind_exists p hp
    have hn : st.fs.find p = some n0 := by rw [inv.1 p hp, h0]
    have hL : Lstat st.fs p = some n0.info := by simp [Lstat, hn]
    unfold walkFails at hok
    rw [hL] at hok
    simp only [Bool.or_eq_false_iff] at hok
    obtain ⟨hret, inv1⟩ := walk_step s d visits fs0 V st T hV inv p hp n0 hn hok.1
    obtain ⟨st1, hw, inv2⟩ := ih (p :: V) _ (fun q hq => hrest q (List.mem_cons_of_mem _ hq))
      (fun q hq => by
        rcases List.mem_cons.mp hq with e | e
        · rw [e]; exact hp
        · exact hV q e) inv1 hok.2
    refine ⟨st1, by simp [walk, visitPath, hL, hret, hw], inv2.1, ?_, inv2.2.2⟩
    intro q hq
    apply inv2.2.1 q
    simp only [List.cons_append, List.mem_cons, List.mem_append] at hq ⊢
    tauto

/-! ## The first run -/

theorem Create_none_of_absent (st : State) (q : Path) (h : st.fs.find q = none)
    (hc : canCreateAt st.fs q = false) : Create st q = none := by
  unfold Create maxSymlinks
  rw [resolve_of_absent _ st.fs q h]
  simp [h, hc]

theorem copyFileDataErr_of_absent (p q : Path) (st : State) (h : st.fs.find q = none)
    (hc : canCreateAt st.fs q = false) : (copyFileDataErr p q st).2 ≠ CopyEnd.done := by
  unfold copyFileDataErr
  simp only []
  split
  · simp
  · simp
  · rw [Create_none_of_absent _ q (by simpa using h) (by simpa using hc)]
    simp

/-- A copy job of a regular file that succeeds changes the destination only
and leaves a regular file with the content and mode of the source. -/
theorem runJob_frame (st : State) (p q : Path) (n : Node)
    (hp : st.fs.find p = some n) (hreg : n.typ = FileType.regular) (hpq : p ≠ q)
    (hq : st.fs.find q = none ∨ ∃ m, st.fs.find q = some m ∧ m.typ = FileType.regular)
    (hok : (copyFileDataErr p q (st.logf (LogLine.copying p q))).2 = CopyEnd.done) :
    jobReturns st ⟨p, q, false⟩ = true ∧
    (∀ x, x ≠ q → (runJob st ⟨p, q, false⟩).fs.find x = st.fs.find x) ∧
    ∃ m1, (runJob st ⟨p, q, false⟩).fs.find q = some m1 ∧ m1.typ = FileType.regular ∧
      m1.data = n.data ∧ m1.mode = n.mode := by
  have tn : n.typ ≠ FileType.symlink := by rw [hreg]; decide
  have hq2 : (st.fs.find q = none ∧ canCreateAt st.fs q = true) ∨
      ∃ m, st.fs.find q = some m ∧ m.typ = FileType.regular := by
    rcases hq with h0 | h
    · left
      refine ⟨h0, ?_⟩
      by_contra hc
      simp only [Bool.not_eq_true] at hc
      exact copyFileDataErr_of_absent p q _ (by simpa using h0) (by simpa using hc) hok
    · exact Or.inr h
  obtain ⟨o, ho, hcreate⟩ : ∃ o : Node, (o.typ = FileType.regular ∧ o.data = []) ∧
      Create ((st.logf (LogLine.copying p q)).logf (LogLine.copyingFile p q)) q =
        some ({ (st.logf (LogLine.copying p q)).logf (LogLine.copyingFile p q) with
          fs := st.fs.put q o }, q) := by
    rcases hq2 with ⟨h0, hc⟩ | ⟨m, hm, tm⟩
    · exact ⟨st.proc.newNode FileType.regular (st.proc.masked 0o666) [], ⟨rfl, rfl⟩,
        Create_of_absent _ q (by simpa using h0) (by simpa using hc)⟩
    · exact ⟨{ m with data := [], mtime := st.proc.now }, ⟨tm, rfl⟩,
        Create_of_regular _ q m (by simpa using hm) tm⟩
  have hdata : copyFileDataErr p q (st.logf (LogLine.copying p q)) =
      ({ (st.logf (LogLine.copying p q)).logf (LogLine.copyingFile p q) with
          fs := st.fs.put q { o with data := n.data, mtime := st.proc.now } },
        CopyEnd.done) := by
    unfold copyFileDataErr
    simp only []
    rw [Open_of_regular _ p n (by simpa using hp) hreg, hcreate]
    simp [ioCopy, syncFails, find_put, hpq, hp, hreg, ho.1, ho.2, put_put]
  have tOut : ({ o with data := n.data, mtime := st.proc.now } : Node).typ ≠
      FileType.symlink := by
    simp [ho.1]
  have hmeta := copyFileMetadataRun_of_not_symlink
    { (st.logf (LogLine.copying p q)).logf (LogLine.copyingFile p q) with
      fs := st.fs.put q { o with data := n.data, mtime := st.proc.now } } p q n
    { o with data := n.data, mtime := st.proc.now } (by simp [find_put, hpq, hp]) tn
    (by simp [find_put]) tOut
  have hrun : runJob st ⟨p, q, false⟩ = (copyFileMetadataRun p q
      (copyFileDataErr p q (st.logf (LogLine.copying p q))).1).1 := rfl
  refine ⟨?_, ?_, ?_⟩
  · unfold jobReturns copyFileData
    simp only [hdata, hmeta]
    decide
  · intro x hx
    rw [hrun, hdata, hmeta]
    simp [find_put, hx]
  · rw [hrun, hdata, hmeta]
    simp only [find_put, ↓reduceIte]
    refine ⟨_, rfl, ?_, ?_, ?_⟩
    · simp [Node.withMetadata, ho.1]
    · simp [Node.withMetadata]
    · simp [Node.withMetadata, Node.metadata, Node.mode, ho.1, hreg]

theorem worker_settles (s d : Path) (visits : List Path) (fs0 : FS)
    (T : SourceTree s d visits fs0) (tail : List copyTask) :
    ∀ (jobs : List copyTask) (st : State),
    (∀ p ∈ visits, st.fs.find p = fs0.find p) →
    (∀ p ∈ visits, Settled s d st.fs jobs p) →
    (∀ j ∈ jobs, ∃ p ∈ visits, j = ⟨p, mappedPath s d p, false⟩ ∧
      ∃ n, fs0.find p = some n ∧ n.typ = FileType.regular) →
    workerFails (jobs ++ tail) st = false →
    ∀ p ∈ visits, Mirrored s d (jobs.foldl runJob st).fs p := by
  intro jobs
  induction jobs with
  | nil =>
    intro st _ hset _ _ p hp
    rcases hset p hp with h | ⟨_, _, _, h, _⟩
    · exact h
    · cases h
  | cons j rest ih =>
    intro st hsrc hset hjobs hok
    obtain ⟨p0, hp0, hj, n0, hn0, hreg⟩ := hjobs j (List.mem_cons_self _ _)
    subst hj
    have hfind : st.fs.find p0 = some n0 := by rw [hsrc p0 hp0, hn0]
    have hne : p0 ≠ mappedPath s d p0 := ne_of_not_isUnder (T.apart p0 hp0 p0 hp0)
    simp only [List.cons_append, workerFails, Bool.false_eq_true, ↓reduceIte,
      Bool.or_eq_false_iff] at hok
    -- the destination is absent or a regular file
    have hdst : st.fs.find (mappedPath s d p0) = none ∨
        ∃ m, st.fs.find (mappedPath s d p0) = some m ∧ m.typ = FileType.regular := by
      rcases hset p0 hp0 with ⟨n, m, h1, h2, h3, _⟩ | ⟨_, _, _, _, h⟩
      · rw [hfind] at h1
        cases h1
        exact Or.inr ⟨m, h2, by rw [← mode_eq_typ h3]; exact hreg⟩
      · exact h
    obtain ⟨_, hframe, m1, hm1, tm1, hdata, hmeta⟩ :=
      runJob_frame st p0 (mappedPath s d p0) n0 hfind hreg hne hdst (by simpa using hok.1.1)
    have hsrc1 : ∀ p ∈ visits, (runJob st ⟨p0, mappedPath s d p0, false⟩).fs.find p =
        st.fs.find p := fun p hp => hframe p (ne_of_not_isUnder (T.apart p hp p0 hp0))
    simp only [List.foldl_cons]
    apply ih _ (fun p hp => (hsrc1 p hp).trans (hsrc p hp)) ?_
      (fun j hj => hjobs j (List.mem_cons_of_mem _ hj)) hok.2
    intro p hp
    by_cases hpp : p = p0
    · subst hpp
      exact Or.inl ⟨n0, m1, by rw [hsrc1 p hp, hfind], hm1, hmeta.symm,
        Or.inl ⟨hreg, by rw [hdata]⟩⟩
    · have hd : (runJob st ⟨p0, mappedPath s d p0, false⟩).fs.find (mappedPath s d p) =
          st.fs.find (mappedPath s d p) :=
        hframe _ (fun e => hpp (mapped_injective (T.under_root p hp) (T.under_root p0 hp0) e))
      rcases hset p hp with h | ⟨n, h1, h2, h3, h4⟩
      · exact @Settled.transfer s d st.fs _ rest rest p (Or.inl h) (hsrc1 p hp) hd (fun _ h => h)
      · rcases List.mem_cons.mp h3 with e | e
        · simp only [copyTask.mk.injEq, and_true] at e
          exact absurd e.1 hpp
        · exact @Settled.transfer s d st.fs _ rest rest p (Or.inr ⟨n, h1, h2, e, h4⟩)
            (hsrc1 p hp) hd (fun _ h => h)

/-- A first run that completes without a failing call leaves every visited
entry mirrored. -/
theorem main_mirrors (s d : Path) (visits : List Path) (st st1 : State)
    (T : SourceTree s d visits st.fs) (hrun : main s d visits st = some st1)
    (hok : mainFails s d visits st = false) :
    ∀ p ∈ visits, Mirrored s d st1.fs p := by
  unfold mainFails at hok
  unfold main at hrun
  cases hq : mainQueue s d visits st with
  | none => rw [hq] at hrun; cases hrun
  | some stq =>
    rw [hq] at hrun hok
    simp only [Bool.or_eq_false_iff] at hok
    simp only [] at hrun
    split at hrun
    · simp only [Option.some.injEq] at hrun
      obtain ⟨jobs, hjq, _, htake⟩ := mainQueue_copyTasks s d visits st stq hq
      obtain ⟨stw, hw, inv⟩ := walk_settles s d visits st.fs T visits []
        { st with copyTasks := [] }
        (fun _ h => h) (fun _ h => absurd h (List.not_mem_nil _))
        ⟨fun _ _ => rfl, fun _ h => absurd h (List.not_mem_nil _),
          fun _ h => absurd h (List.not_mem_nil _)⟩ hok.1
      have hstq : stq =
          { stw with copyTasks := stw.copyTasks ++ List.replicate copyThreads bailout } := by
        unfold mainQueue at hq
        rw [hw] at hq
        simp only [Option.some.injEq] at hq
        exact hq.symm
      have hjobs : stw.copyTasks = jobs := by
        have : stq.copyTasks = stw.copyTasks ++ List.replicate copyThreads bailout := by rw [hstq]
        rw [hjq] at this
        exact (List.append_cancel_right this).symm
      have hfs : stq.fs = stw.fs := by rw [hstq]
      have hfinal := worker_settles s d visits st.fs T (List.replicate copyThreads bailout) jobs
        stq
        (fun p hp => by rw [hfs]; exact inv.1 p hp)
        (fun p hp => by
          rw [hfs, ← hjobs]
          exact inv.2.1 p (by simpa using hp))
        (fun j hj => inv.2.2 j (by rw [hjobs]; exact hj))
        (by rw [← hjq]; exact hok.2)
      intro p hp
      rw [← hrun]
      have := hfinal p hp
      rw [← htake, ← (startCopyThread_eq stq.copyTasks stq
        (workerReturns_of_not_fails _ _ hok.2)).1] at this
      exact this
    · cases hrun

/-- C7, as amended. Idempotence: for a source tree of regular files,
directories and symbolic links (only directories have entries below them, no
source entry lies at or below a destination path), if a first run completes
and none of its filesystem calls fails, a second run sends no copy job (only
the termination job) and leaves every entry in place with its type,
permission bits and content; and on a regular source file whose destination
is a regular file with the same length and the same metadata `verifyPath`
changes nothing. -/
theorem second_run_enqueues_nothing (s d : Path) (visits : List Path) (st st1 : State)
    (T : SourceTree s d visits st.fs) (hrun : main s d visits st = some st1)
    (hok : mainFails s d visits st = false) :
    (∃ st2, mainQueue s d visits st1 = some st2 ∧
      st2.copyTasks = List.replicate copyThreads bailout ∧ SameShape st1.fs st2.fs) ∧
    (∀ (st3 : State) (p : Path) (n m : Node), st3.fs.find p = some n →
      n.typ = FileType.regular → st3.fs.find (mappedPath s d p) = some m →
      m.data.length = n.data.length → m.metadata = n.metadata →
      verifyPath s d p n.info st3 = st3) := by
  refine ⟨?_, ?_⟩
  · have hm := main_mirrors s d visits st st1 T hrun hok
    obtain ⟨st2, hw, hq, hs⟩ := walk_of_mirrored s d visits { st1 with copyTasks := [] } hm
    refine ⟨{ st2 with copyTasks := st2.copyTasks ++ List.replicate copyThreads bailout },
      ?_, ?_, hs⟩
    · simp only [mainQueue, hw]
    · simp [hq]
  · intro st3 p n m hp hreg hq hlen hmeta
    exact verifyPath_noop s d p n m st3 hp hreg hq (by rw [metadata_typ hmeta, hreg]) hlen hmeta

theorem smallTree_sourceTree : SourceTree "/a".toList "/b".toList smallTreeVisits smallTree.fs :=
  ⟨by decide, by decide, by decide, by decide⟩

/-- C7, at a concrete input: after a first run on `smallTree` a second run
sends the termination job only. -/
theorem second_run_enqueues_nothing_witness :
    ∃ st1 st2, main "/a".toList "/b".toList smallTreeVisits smallTree = some st1 ∧
      mainQueue "/a".toList "/b".toList smallTreeVisits st1 = some st2 ∧
      st2.copyTasks = List.replicate copyThreads bailout := by
  cases h : main "/a".toList "/b".toList smallTreeVisits smallTree with
  | none => exact absurd h (by decide)
  | some st1 =>
    obtain ⟨st2, h1, h2, _⟩ := (second_run_enqueues_nothing "/a".toList "/b".toList
      smallTreeVisits smallTree st1 smallTree_sourceTree h (by decide)).1
    exact ⟨st1, st2, rfl, h1, h2⟩

end ParallelSync
